import Mathlib

/-!
# bitlibgo: numeric utilities and shape library

A shallow embedding of `src/bitmath/math.go` and `src/drawing.go`.

`float64` is read as an exact ordered field `α` (the reals, or the rationals when a
term is to be evaluated).  Every definition is generic in `α`, so it runs on `ℚ` and
is reasoned about on `ℝ`.  The 64-bit `int` keeps its range: products wrap (`wrapInt`)
and the conversion `int(f)` is `floatToInt`.  Where rounding decides whether a loop
ends, in `Grid`, a second reading rounds every addition to binary64 (`round64`,
`gridColumns64`, `gridRows64`, `Grid64`).
-/

namespace bitmath

section Field

variable {α : Type} [Field α]

/-- TwoPi of `math.go`: `math.Pi * 2`; `math.Pi` is passed in. -/
def TwoPi (pi : α) : α := pi * 2

/-- HalfPi of `math.go`: `math.Pi / 2`; `math.Pi` is passed in. -/
def HalfPi (pi : α) : α := pi / 2

/-- Norm of `math.go`. -/
def Norm (value min max : α) : α := (value - min) / (max - min)

/-- Lerp of `math.go`. -/
def Lerp (t min max : α) : α := min + (max - min) * t

/-- MapTo of `math.go`. -/
def MapTo (srcValue srcMin srcMax dstMin dstMax : α) : α :=
  let norm := Norm srcValue srcMin srcMax
  Lerp norm dstMin dstMax

/-- SinRange of `math.go`; `math.Sin` is passed in. -/
def SinRange (sin : α → α) (angle min max : α) : α := MapTo (sin angle) (-1) 1 min max

/-- CosRange of `math.go`; `math.Cos` is passed in. -/
def CosRange (cos : α → α) (angle min max : α) : α := MapTo (cos angle) (-1) 1 min max

end Field

section Ordered

variable {α : Type} [LinearOrderedField α]

/-- Truncation toward zero of an exact value. -/
def trunc [FloorRing α] (q : α) : Int := if 0 ≤ q then ⌊q⌋ else ⌈q⌉

/-- Go's `math.Mod(x, y)` in exact arithmetic: the remainder of the truncating
division, `x - y * trunc (x / y)`; its sign agrees with that of `x`.  (For `y = 0` Go
returns NaN; here `x / 0 = 0` and the value is `x`.) -/
def Mod [FloorRing α] (x y : α) : α := x - y * (trunc (x / y) : α)

/-- Wrap of `math.go`. -/
def Wrap [FloorRing α] (value min max : α) : α :=
  let r := max - min
  min + Mod (Mod (value - min) r + r) r

/-- Clamp of `math.go`. -/
def Clamp (value min max : α) : α :=
  let realMin := if min > max then max else min
  let realMax := if min > max then min else max
  let result := if value < realMin then realMin else value
  let result := if value > realMax then realMax else result
  result

/-- Equalish of `math.go`. -/
def Equalish (a b delta : α) : Bool := decide (|a - b| ≤ delta)

end Ordered

end bitmath


namespace geom

/-- Modelled from the spec: the 2D point value of package `geom`, which is not under
`src/`: "a 2D point value with x, y coordinates and a constructor". -/
structure Point (α : Type) where
  X : α
  Y : α
  deriving DecidableEq, Repr

/-- Modelled from the spec: the constructor of `geom.Point`. -/
def NewPoint {α : Type} (x y : α) : Point α := ⟨x, y⟩

end geom

namespace bitlibgo

open geom

/-- The functions and the constant of Go's `math` package that `drawing.go` calls,
taken as a parameter (on the reals: `Real.pi`, `Real.sqrt`, `Real.cos`, ...). -/
structure GoMath (α : Type) where
  Pi : α
  Sqrt : α → α
  Cos : α → α
  Sin : α → α
  Atan2 : α → α → α
  Hypot : α → α → α
  Pow : α → α → α

/-- A state-changing call received by the backend surface (§6 of the spec). -/
inductive Call (α : Type) where
  | MoveTo (x y : α)
  | LineTo (x y : α)
  | Arc (xc yc radius angle1 angle2 : α)
  | CurveTo (x1 y1 x2 y2 x3 y3 : α)
  | Rectangle (x y width height : α)
  | ClosePath
  | Stroke
  | Fill
  | Save
  | Restore
  | Translate (tx ty : α)
  | Rotate (angle : α)
  | Scale (sx sy : α)
  deriving DecidableEq, Repr

/-- A change of the current transform, kept symbolically. -/
inductive TransformOp (α : Type) where
  | Translate (tx ty : α)
  | Rotate (angle : α)
  | Scale (sx sy : α)
  deriving DecidableEq, Repr

/-- Modelled from the spec: the backend surface behind `*BitSurface` (its methods
`MoveTo`, `LineTo`, `Arc`, `CurveTo`, `Rectangle`, `ClosePath`, `GetCurrentPoint`,
`Stroke`, `Fill`, `Save`, `Restore`, `Translate`, `Rotate`, `Scale` are not under
`src/`).  It records the calls it receives, in order, and holds a current point, a
current transform (the transform changes applied so far, newest first) and the stack
of transforms pushed by `Save`. -/
structure BitSurface (α : Type) where
  calls : List (Call α)
  current : α × α
  transform : List (TransformOp α)
  saved : List (List (TransformOp α))
  deriving DecidableEq, Repr

section Backend

variable {α : Type}

/-- Modelled from the spec: the effect of one backend call.  `MoveTo`, `LineTo` and
`CurveTo` leave the current point at their target; `Save` pushes the current
transform and `Restore` pops it (with nothing saved it changes nothing);
`Translate`, `Rotate` and `Scale` change the current transform.  The spec does not
say where the current point is after the other calls: they leave the field alone. -/
def BitSurface.issue (s : BitSurface α) (c : Call α) : BitSurface α :=
  let s := { s with calls := s.calls ++ [c] }
  match c with
  | .MoveTo x y => { s with current := (x, y) }
  | .LineTo x y => { s with current := (x, y) }
  | .CurveTo _ _ _ _ x3 y3 => { s with current := (x3, y3) }
  | .Save => { s with saved := s.transform :: s.saved }
  | .Restore =>
    match s.saved with
    | [] => s
    | t :: rest => { s with transform := t, saved := rest }
  | .Translate tx ty => { s with transform := .Translate tx ty :: s.transform }
  | .Rotate angle => { s with transform := .Rotate angle :: s.transform }
  | .Scale sx sy => { s with transform := .Scale sx sy :: s.transform }
  | _ => s

/-- The surface after a list of backend calls, issued in order. -/
def BitSurface.replay (s : BitSurface α) (cs : List (Call α)) : BitSurface α :=
  cs.foldl BitSurface.issue s

def BitSurface.MoveTo (s : BitSurface α) (x y : α) : BitSurface α := s.issue (.MoveTo x y)

def BitSurface.LineTo (s : BitSurface α) (x y : α) : BitSurface α := s.issue (.LineTo x y)

def BitSurface.Arc (s : BitSurface α) (xc yc radius angle1 angle2 : α) : BitSurface α :=
  s.issue (.Arc xc yc radius angle1 angle2)

def BitSurface.CurveTo (s : BitSurface α) (x1 y1 x2 y2 x3 y3 : α) : BitSurface α :=
  s.issue (.CurveTo x1 y1 x2 y2 x3 y3)

def BitSurface.Rectangle (s : BitSurface α) (x y width height : α) : BitSurface α :=
  s.issue (.Rectangle x y width height)

def BitSurface.ClosePath (s : BitSurface α) : BitSurface α := s.issue .ClosePath

def BitSurface.Stroke (s : BitSurface α) : BitSurface α := s.issue .Stroke

def BitSurface.Fill (s : BitSurface α) : BitSurface α := s.issue .Fill

def BitSurface.Save (s : BitSurface α) : BitSurface α := s.issue .Save

def BitSurface.Restore (s : BitSurface α) : BitSurface α := s.issue .Restore

def BitSurface.Translate (s : BitSurface α) (tx ty : α) : BitSurface α :=
  s.issue (.Translate tx ty)

def BitSurface.Rotate (s : BitSurface α) (angle : α) : BitSurface α := s.issue (.Rotate angle)

def BitSurface.Scale (s : BitSurface α) (sx sy : α) : BitSurface α := s.issue (.Scale sx sy)

/-- The query `GetCurrentPoint`; it is not recorded among the calls. -/
def BitSurface.GetCurrentPoint (s : BitSurface α) : α × α := s.current

/-- Go's `int` (64 bits): the value of an integer expression after wrap-around. -/
def wrapInt (n : Int) : Int := (n + 2 ^ 63) % 2 ^ 64 - 2 ^ 63

end Backend

end bitlibgo

namespace bitlibgo

open geom

section Shapes

variable {α : Type} [LinearOrderedField α] [FloorRing α]

/-- Line of `drawing.go`. -/
def Line (s : BitSurface α) (x0 y0 x1 y1 : α) : BitSurface α :=
  let s := s.MoveTo x0 y0
  let s := s.LineTo x1 y1
  s.Stroke

/-- LineThrough of `drawing.go`. -/
def LineThrough (M : GoMath α) (s : BitSurface α) (x0 y0 x1 y1 overlap : α) : BitSurface α :=
  let s := s.Save
  let s := s.Translate x0 y0
  let s := s.Rotate (M.Atan2 (y1 - y0) (x1 - x0))
  let p2 := M.Hypot (x0 - x1) (y0 - y1)
  let s := s.MoveTo (-overlap) 0
  let s := s.LineTo (p2 + overlap) 0
  let s := s.Stroke
  s.Restore

/-- Ray of `drawing.go`. -/
def Ray (s : BitSurface α) (x y angle offset length : α) : BitSurface α :=
  let s := s.Save
  let s := s.Translate x y
  let s := s.Rotate angle
  let s := s.MoveTo offset 0
  let s := s.LineTo (offset + length) 0
  let s := s.Stroke
  s.Restore

/-- FillRectangle of `drawing.go`. -/
def FillRectangle (s : BitSurface α) (x y w h : α) : BitSurface α :=
  (s.Rectangle x y w h).Fill

/-- StrokeRectangle of `drawing.go`. -/
def StrokeRectangle (s : BitSurface α) (x y w h : α) : BitSurface α :=
  (s.Rectangle x y w h).Stroke

/-- RoundRectangle of `drawing.go`. -/
def RoundRectangle (M : GoMath α) (s : BitSurface α) (x y w h r : α) : BitSurface α :=
  let s := s.MoveTo (x + r) y
  let s := s.LineTo (x + w - r) y
  let s := s.Arc (x + w - r) (y + r) r (-bitmath.HalfPi M.Pi) 0
  let s := s.LineTo (x + w) (y + h - r)
  let s := s.Arc (x + w - r) (y + h - r) r 0 (bitmath.HalfPi M.Pi)
  let s := s.LineTo (x + r) (y + h)
  let s := s.Arc (x + r) (y + h - r) r (bitmath.HalfPi M.Pi) M.Pi
  let s := s.LineTo x (y + r)
  s.Arc (x + r) (y + r) r M.Pi (-bitmath.HalfPi M.Pi)

/-- StrokeRoundRectangle of `drawing.go`. -/
def StrokeRoundRectangle (M : GoMath α) (s : BitSurface α) (x y w h r : α) : BitSurface α :=
  (RoundRectangle M s x y w h r).Stroke

/-- FillRoundRectangle of `drawing.go`. -/
def FillRoundRectangle (M : GoMath α) (s : BitSurface α) (x y w h r : α) : BitSurface α :=
  (RoundRectangle M s x y w h r).Fill

/-- Circle of `drawing.go`. -/
def Circle (M : GoMath α) (s : BitSurface α) (x y r : α) : BitSurface α :=
  s.Arc x y r 0 (bitmath.TwoPi M.Pi)

/-- FillCircle of `drawing.go`. -/
def FillCircle (M : GoMath α) (s : BitSurface α) (x y r : α) : BitSurface α :=
  (Circle M s x y r).Fill

/-- StrokeCircle of `drawing.go`. -/
def StrokeCircle (M : GoMath α) (s : BitSurface α) (x y r : α) : BitSurface α :=
  (Circle M s x y r).Stroke

/-- Ellipse of `drawing.go`. -/
def Ellipse (M : GoMath α) (s : BitSurface α) (x y xr yr : α) : BitSurface α :=
  let s := s.Save
  let s := s.Translate x y
  let s := s.Scale xr yr
  let s := Circle M s 0 0 1
  s.Restore

/-- FillEllipse of `drawing.go`. -/
def FillEllipse (M : GoMath α) (s : BitSurface α) (x y xr yr : α) : BitSurface α :=
  (Ellipse M s x y xr yr).Fill

/-- StrokeEllipse of `drawing.go`. -/
def StrokeEllipse (M : GoMath α) (s : BitSurface α) (x y xr yr : α) : BitSurface α :=
  (Ellipse M s x y xr yr).Stroke

/-- Path of `drawing.go`: one `LineTo` per point, in order. -/
def Path (s : BitSurface α) (points : List (Point α)) : BitSurface α :=
  points.foldl (fun s point => s.LineTo point.X point.Y) s

/-- FillPath of `drawing.go`. -/
def FillPath (s : BitSurface α) (points : List (Point α)) : BitSurface α :=
  (Path s points).Fill

/-- StrokePath of `drawing.go`. -/
def StrokePath (s : BitSurface α) (points : List (Point α)) (close : Bool) : BitSurface α :=
  let s := Path s points
  let s := if close then s.ClosePath else s
  s.Stroke

/-- Polygon of `drawing.go`; the loop `for i := 0; i < sides; i++` runs
`sides.toNat` times. -/
def Polygon (M : GoMath α) (s : BitSurface α) (x y r : α) (sides : Int) (rotation : α) :
    BitSurface α :=
  let s := s.Save
  let s := s.Translate x y
  let s := s.Rotate rotation
  let s := s.MoveTo r 0
  let s := (List.range sides.toNat).foldl (fun (s : BitSurface α) (i : Nat) =>
    let angle := bitmath.TwoPi M.Pi / (sides : α) * (i : α)
    s.LineTo (M.Cos angle * r) (M.Sin angle * r)) s
  let s := s.LineTo r 0
  s.Restore

/-- StrokePolygon of `drawing.go`. -/
def StrokePolygon (M : GoMath α) (s : BitSurface α) (x y r : α) (sides : Int) (rotation : α) :
    BitSurface α :=
  (Polygon M s x y r sides rotation).Stroke

/-- FillPolygon of `drawing.go`. -/
def FillPolygon (M : GoMath α) (s : BitSurface α) (x y r : α) (sides : Int) (rotation : α) :
    BitSurface α :=
  (Polygon M s x y r sides rotation).Fill

/-- Star of `drawing.go`; the loop bound `points*2` is an `int` product. -/
def Star (M : GoMath α) (s : BitSurface α) (x y r0 r1 : α) (points : Int) (rotation : α) :
    BitSurface α :=
  let s := s.Save
  let s := s.Translate x y
  let s := s.Rotate rotation
  let s := (List.range (wrapInt (points * 2)).toNat).foldl (fun (s : BitSurface α) (i : Nat) =>
    let r := if i % 2 = 1 then r0 else r1
    let angle := M.Pi / (points : α) * (i : α)
    s.LineTo (M.Cos angle * r) (M.Sin angle * r)) s
  let s := s.ClosePath
  s.Restore

/-- StrokeStar of `drawing.go`. -/
def StrokeStar (M : GoMath α) (s : BitSurface α) (x y r0 r1 : α) (points : Int) (rotation : α) :
    BitSurface α :=
  (Star M s x y r0 r1 points rotation).Stroke

/-- FillStar of `drawing.go`. -/
def FillStar (M : GoMath α) (s : BitSurface α) (x y r0 r1 : α) (points : Int) (rotation : α) :
    BitSurface α :=
  (Star M s x y r0 r1 points rotation).Fill

/-- makePoint of `drawing.go`. -/
def makePoint (M : GoMath α) (angle radius : α) : Point α :=
  NewPoint (M.Cos angle * radius) (M.Sin angle * radius)

/-- QuadraticCurveTo of `drawing.go`. -/
def QuadraticCurveTo (s : BitSurface α) (x0 y0 x1 y1 : α) : BitSurface α :=
  let (px, py) := s.GetCurrentPoint
  s.CurveTo
    (2 / 3 * x0 + 1 / 3 * px)
    (2 / 3 * y0 + 1 / 3 * py)
    (2 / 3 * x0 + 1 / 3 * x1)
    (2 / 3 * y0 + 1 / 3 * y1)
    x1 y1

/-- StrokeQuadraticCurveTo of `drawing.go`. -/
def StrokeQuadraticCurveTo (s : BitSurface α) (x0 y0 x1 y1 : α) : BitSurface α :=
  (QuadraticCurveTo s x0 y0 x1 y1).Stroke

/-- StrokeCurveTo of `drawing.go`. -/
def StrokeCurveTo (s : BitSurface α) (x0 y0 x1 y1 x2 y2 : α) : BitSurface α :=
  (s.CurveTo x0 y0 x1 y1 x2 y2).Stroke

/-- The body of the loops of `MultiCurve` and `MultiLoop`: read `points[i]` and
`points[i+1]` and draw the curve to their midpoint.  A read out of range panics: a
method that can panic returns `.ok` on a normal return and `.error` with the surface
as it was when the panic was raised. -/
def curveToMidpoint (points : List (Point α)) (s : BitSurface α) (i : Nat) :
    Except (BitSurface α) (BitSurface α) :=
  match points[i]?, points[i + 1]? with
  | some p0, some p1 =>
    let midx := (p0.X + p1.X) / 2
    let midy := (p0.Y + p1.Y) / 2
    .ok (QuadraticCurveTo s p0.X p0.Y midx midy)
  | _, _ => .error s

/-- MultiCurve of `drawing.go`.  `points[0]` is read before `MoveTo` and `points[1]`
before `LineTo`; the loop runs for `i = 1, ..., len(points)-2`.  The `fmt.Println` of
the loop body writes to standard output, not to the surface, and is left out. -/
def MultiCurve (s : BitSurface α) (points : List (Point α)) :
    Except (BitSurface α) (BitSurface α) :=
  match points[0]? with
  | none => .error s
  | some first =>
    let s := s.MoveTo first.X first.Y
    match points[1]? with
    | none => .error s
    | some second => do
      let s := s.LineTo ((first.X + second.X) / 2) ((first.Y + second.Y) / 2)
      let s ← (List.range' 1 (points.length - 2)).foldlM (curveToMidpoint points) s
      match points[points.length - 1]? with
      | none => .error s
      | some p => pure (s.LineTo p.X p.Y)

/-- StrokeMultiCurve of `drawing.go`. -/
def StrokeMultiCurve (s : BitSurface α) (points : List (Point α)) :
    Except (BitSurface α) (BitSurface α) := do
  let s ← MultiCurve s points
  pure s.Stroke

/-- MultiLoop of `drawing.go`.  `points[0]` and `points[len(points)-1]` are read
first; the loop runs for `i = 0, ..., len(points)-2`. -/
def MultiLoop (s : BitSurface α) (points : List (Point α)) :
    Except (BitSurface α) (BitSurface α) :=
  match points[0]?, points[points.length - 1]? with
  | some pA, some pZ => do
    let mid1x := (pZ.X + pA.X) / 2
    let mid1y := (pZ.Y + pA.Y) / 2
    let s := s.MoveTo mid1x mid1y
    let s ← (List.range (points.length - 1)).foldlM (curveToMidpoint points) s
    pure (QuadraticCurveTo s pZ.X pZ.Y mid1x mid1y)
  | _, _ => .error s

/-- FillMultiLoop of `drawing.go`. -/
def FillMultiLoop (s : BitSurface α) (points : List (Point α)) :
    Except (BitSurface α) (BitSurface α) := do
  let s ← MultiLoop s points
  pure s.Fill

/-- StrokeMultiLoop of `drawing.go`. -/
def StrokeMultiLoop (s : BitSurface α) (points : List (Point α)) :
    Except (BitSurface α) (BitSurface α) := do
  let s ← MultiLoop s points
  pure s.Stroke

/-- One node of `Splat`: the five points appended by one pass of its loop, from the
random sample `u` of that pass.  As in the source, `radius` and `radiusRange` are
declared anew inside the loop body and hide the outer ones from there on. -/
def splatNode (M : GoMath α) (slice curve radius innerRadius variation radiusRange u angle : α) :
    List (Point α) :=
  let radius := radius + variation * (u * radiusRange * 2 - radiusRange)
  let radiusRange := radius - innerRadius
  [makePoint M (angle - slice * (1 + curve)) innerRadius,
   makePoint M (angle + slice * curve) innerRadius,
   makePoint M (angle - slice * curve) (innerRadius + radiusRange * 0.8),
   makePoint M (angle + slice / 2) radius,
   makePoint M (angle + slice * (1 + curve)) (innerRadius + radiusRange * 0.8)]

/-- The point list built by the loop of `Splat`; `rand i` is the value of the
`rand.Float64()` call of pass `i`. -/
def splatPoints (M : GoMath α) (rand : Nat → α) (numNodes : Int)
    (radius innerRadius variation : α) : List (Point α) :=
  let slice := bitmath.TwoPi M.Pi / ((wrapInt (numNodes * 2) : Int) : α)
  let curve : α := 0.3
  let radiusRange := radius - innerRadius
  let variation := bitmath.Clamp variation 0 1
  ((List.range numNodes.toNat).foldl (fun (acc : List (Point α) × α) i =>
    let (points, angle) := acc
    let points := points ++
      splatNode M slice curve radius innerRadius variation radiusRange (rand i) angle
    (points, angle + slice * 2)) ([], 0)).1

/-- Splat of `drawing.go`. -/
def Splat (M : GoMath α) (rand : Nat → α) (s : BitSurface α) (x y : α) (numNodes : Int)
    (radius innerRadius variation : α) : Except (BitSurface α) (BitSurface α) := do
  let points := splatPoints M rand numNodes radius innerRadius variation
  let s := s.Save
  let s := s.Translate x y
  let s ← MultiLoop s points
  pure s.Restore

/-- StrokeSplat of `drawing.go`. -/
def StrokeSplat (M : GoMath α) (rand : Nat → α) (s : BitSurface α) (x y : α) (numNodes : Int)
    (radius innerRadius variation : α) : Except (BitSurface α) (BitSurface α) := do
  let s ← Splat M rand s x y numNodes radius innerRadius variation
  pure s.Stroke

/-- FillSplat of `drawing.go`. -/
def FillSplat (M : GoMath α) (rand : Nat → α) (s : BitSurface α) (x y : α) (numNodes : Int)
    (radius innerRadius variation : α) : Except (BitSurface α) (BitSurface α) := do
  let s ← Splat M rand s x y numNodes radius innerRadius variation
  pure s.Fill

/-- The inner loop of `FractalLine` (`for j, point := range path`): every point is
copied, and every point but the last is followed by the displaced midpoint of it and
its successor `path[j+1]`.  `n` counts the `rand.Float64()` calls made so far; the
result carries the new path and the new count. -/
def fractalPass (rand : Nat → α) (offset : α) :
    Nat → List (Point α) → List (Point α) × Nat
  | n, [] => ([], n)
  | n, [point] => ([NewPoint point.X point.Y], n)
  | n, point :: next :: rest =>
    let x := (point.X + next.X) / 2 + rand n * offset * 2 - offset
    let y := (point.Y + next.Y) / 2 + rand (n + 1) * offset * 2 - offset
    let (tail, n) := fractalPass rand offset (n + 2) (next :: rest)
    (NewPoint point.X point.Y :: NewPoint x y :: tail, n)

/-- The path that `FractalLine` hands to `Path`. -/
def fractalPath (M : GoMath α) (rand : Nat → α) (x1 y1 x2 y2 roughness : α)
    (iterations : Int) : List (Point α) :=
  let dx := x2 - x1
  let dy := y2 - y1
  let offset := M.Sqrt (dx * dx + dy * dy) * 0.15
  let path := [NewPoint x1 y1, NewPoint x2 y2]
  ((List.range iterations.toNat).foldl (fun (st : List (Point α) × α × Nat) _ =>
    let (path, offset, n) := st
    let (newPath, n) := fractalPass rand offset n path
    (newPath, offset * roughness, n)) (path, offset, 0)).1

/-- FractalLine of `drawing.go`. -/
def FractalLine (M : GoMath α) (rand : Nat → α) (s : BitSurface α)
    (x1 y1 x2 y2 roughness : α) (iterations : Int) : BitSurface α :=
  Path s (fractalPath M rand x1 y1 x2 y2 roughness iterations)

/-- The unexported strokeFractalLine of `drawing.go`. -/
def strokeFractalLine (M : GoMath α) (rand : Nat → α) (s : BitSurface α)
    (x1 y1 x2 y2 roughness : α) (iterations : Int) : BitSurface α :=
  (FractalLine M rand s x1 y1 x2 y2 roughness iterations).Stroke

/-- Go's conversion `int(f)` of a `float64` to the 64-bit `int`: the fraction is
discarded (truncation toward zero) when the result fits in 64 bits; for a value out of
range the result is implementation-dependent, and on amd64 it is the least `int`,
`-2^63`. -/
def floatToInt (f : α) : Int :=
  if -2 ^ 63 ≤ bitmath.trunc f ∧ bitmath.trunc f < 2 ^ 63 then bitmath.trunc f else -2 ^ 63

/-- The path that `Heart` hands to `Path`: one point for each `i` with
`0 ≤ i < int(res)`, none when `int(res) ≤ 0`. -/
def heartPath (M : GoMath α) (w h : α) : List (Point α) :=
  let res := M.Sqrt (w * h)
  (List.range (floatToInt res).toNat).foldl (fun (path : List (Point α)) (i : Nat) =>
    let a := bitmath.TwoPi M.Pi * (i : α) / res
    let x := w * M.Pow (M.Sin a) 3
    let y := h * (0.8125 * M.Cos a) - 0.3125 * M.Cos (2 * a) - 0.125 * M.Cos (3 * a)
      - 0.0625 * M.Cos (4 * a)
    path ++ [NewPoint x (-y)]) []

/-- Heart of `drawing.go`. -/
def Heart (M : GoMath α) (s : BitSurface α) (x y w h r : α) : BitSurface α :=
  let s := s.Save
  let s := s.Translate x y
  let s := s.Rotate r
  let s := Path s (heartPath M w h)
  s.Restore

/-- FillHeart of `drawing.go`. -/
def FillHeart (M : GoMath α) (s : BitSurface α) (x y w h r : α) : BitSurface α :=
  (Heart M s x y w h r).Fill

/-- StrokeHeart of `drawing.go`. -/
def StrokeHeart (M : GoMath α) (s : BitSurface α) (x y w h r : α) : BitSurface α :=
  (Heart M s x y w h r).Stroke

/-- Points of `drawing.go`. -/
def Points (M : GoMath α) (s : BitSurface α) (points : List (Point α)) (radius : α) :
    BitSurface α :=
  points.foldl (fun s point => FillCircle M s point.X point.Y radius) s

/-- The first loop of `Grid` (`for xx <= x+w`), with a bound on the number of times
its condition is evaluated; `none` when the bound is reached. -/
def gridColumns (x y w h xres : α) : Nat → BitSurface α → α → Option (BitSurface α)
  | 0, _, _ => none
  | fuel + 1, s, xx =>
    if xx ≤ x + w then
      gridColumns x y w h xres fuel ((s.MoveTo xx y).LineTo xx (y + h)) (xx + xres)
    else some s

/-- The second loop of `Grid` (`for yy <= y+h`), bounded in the same way. -/
def gridRows (x y w h yres : α) : Nat → BitSurface α → α → Option (BitSurface α)
  | 0, _, _ => none
  | fuel + 1, s, yy =>
    if yy ≤ y + h then
      gridRows x y w h yres fuel ((s.MoveTo x yy).LineTo (x + w) yy) (yy + yres)
    else some s

/-- Grid of `drawing.go`; `none` when a loop has not ended within `fuel` tests of its
condition. -/
def Grid (fuel : Nat) (s : BitSurface α) (x y w h xres yres : α) : Option (BitSurface α) := do
  let xx := x
  let yy := y
  let s ← gridColumns x y w h xres fuel s xx
  let s ← gridRows x y w h yres fuel s yy
  pure s.Stroke

/-- A call of one of the methods of `drawing.go`, with its arguments. -/
inductive Shape (α : Type) where
  | Line (x0 y0 x1 y1 : α)
  | LineThrough (x0 y0 x1 y1 overlap : α)
  | Ray (x y angle offset length : α)
  | FillRectangle (x y w h : α)
  | StrokeRectangle (x y w h : α)
  | RoundRectangle (x y w h r : α)
  | StrokeRoundRectangle (x y w h r : α)
  | FillRoundRectangle (x y w h r : α)
  | Circle (x y r : α)
  | FillCircle (x y r : α)
  | StrokeCircle (x y r : α)
  | Ellipse (x y xr yr : α)
  | FillEllipse (x y xr yr : α)
  | StrokeEllipse (x y xr yr : α)
  | Path (points : List (Point α))
  | FillPath (points : List (Point α))
  | StrokePath (points : List (Point α)) (close : Bool)
  | Polygon (x y r : α) (sides : Int) (rotation : α)
  | StrokePolygon (x y r : α) (sides : Int) (rotation : α)
  | FillPolygon (x y r : α) (sides : Int) (rotation : α)
  | Star (x y r0 r1 : α) (points : Int) (rotation : α)
  | StrokeStar (x y r0 r1 : α) (points : Int) (rotation : α)
  | FillStar (x y r0 r1 : α) (points : Int) (rotation : α)
  | Splat (x y : α) (numNodes : Int) (radius innerRadius variation : α)
  | StrokeSplat (x y : α) (numNodes : Int) (radius innerRadius variation : α)
  | FillSplat (x y : α) (numNodes : Int) (radius innerRadius variation : α)
  | FractalLine (x1 y1 x2 y2 roughness : α) (iterations : Int)
  | strokeFractalLine (x1 y1 x2 y2 roughness : α) (iterations : Int)
  | Heart (x y w h r : α)
  | FillHeart (x y w h r : α)
  | StrokeHeart (x y w h r : α)
  | Points (points : List (Point α)) (radius : α)
  | StrokeCurveTo (x0 y0 x1 y1 x2 y2 : α)
  | QuadraticCurveTo (x0 y0 x1 y1 : α)
  | StrokeQuadraticCurveTo (x0 y0 x1 y1 : α)
  | MultiCurve (points : List (Point α))
  | StrokeMultiCurve (points : List (Point α))
  | MultiLoop (points : List (Point α))
  | FillMultiLoop (points : List (Point α))
  | StrokeMultiLoop (points : List (Point α))
  | Grid (x y w h xres yres : α)

/-- Run one method call on a surface: `none` when a loop of `Grid` has not ended
within `fuel` tests, `some (.error s)` when the method panics, `some (.ok s)` when
it returns. -/
def Shape.draw (M : GoMath α) (rand : Nat → α) (fuel : Nat) (s : BitSurface α) :
    Shape α → Option (Except (BitSurface α) (BitSurface α))
  | .Line x0 y0 x1 y1 => some (.ok (bitlibgo.Line s x0 y0 x1 y1))
  | .LineThrough x0 y0 x1 y1 overlap => some (.ok (bitlibgo.LineThrough M s x0 y0 x1 y1 overlap))
  | .Ray x y angle offset length => some (.ok (bitlibgo.Ray s x y angle offset length))
  | .FillRectangle x y w h => some (.ok (bitlibgo.FillRectangle s x y w h))
  | .StrokeRectangle x y w h => some (.ok (bitlibgo.StrokeRectangle s x y w h))
  | .RoundRectangle x y w h r => some (.ok (bitlibgo.RoundRectangle M s x y w h r))
  | .StrokeRoundRectangle x y w h r => some (.ok (bitlibgo.StrokeRoundRectangle M s x y w h r))
  | .FillRoundRectangle x y w h r => some (.ok (bitlibgo.FillRoundRectangle M s x y w h r))
  | .Circle x y r => some (.ok (bitlibgo.Circle M s x y r))
  | .FillCircle x y r => some (.ok (bitlibgo.FillCircle M s x y r))
  | .StrokeCircle x y r => some (.ok (bitlibgo.StrokeCircle M s x y r))
  | .Ellipse x y xr yr => some (.ok (bitlibgo.Ellipse M s x y xr yr))
  | .FillEllipse x y xr yr => some (.ok (bitlibgo.FillEllipse M s x y xr yr))
  | .StrokeEllipse x y xr yr => some (.ok (bitlibgo.StrokeEllipse M s x y xr yr))
  | .Path points => some (.ok (bitlibgo.Path s points))
  | .FillPath points => some (.ok (bitlibgo.FillPath s points))
  | .StrokePath points close => some (.ok (bitlibgo.StrokePath s points close))
  | .Polygon x y r sides rotation => some (.ok (bitlibgo.Polygon M s x y r sides rotation))
  | .StrokePolygon x y r sides rotation =>
    some (.ok (bitlibgo.StrokePolygon M s x y r sides rotation))
  | .FillPolygon x y r sides rotation =>
    some (.ok (bitlibgo.FillPolygon M s x y r sides rotation))
  | .Star x y r0 r1 points rotation => some (.ok (bitlibgo.Star M s x y r0 r1 points rotation))
  | .StrokeStar x y r0 r1 points rotation =>
    some (.ok (bitlibgo.StrokeStar M s x y r0 r1 points rotation))
  | .FillStar x y r0 r1 points rotation =>
    some (.ok (bitlibgo.FillStar M s x y r0 r1 points rotation))
  | .Splat x y numNodes radius innerRadius variation =>
    some (bitlibgo.Splat M rand s x y numNodes radius innerRadius variation)
  | .StrokeSplat x y numNodes radius innerRadius variation =>
    some (bitlibgo.StrokeSplat M rand s x y numNodes radius innerRadius variation)
  | .FillSplat x y numNodes radius innerRadius variation =>
    some (bitlibgo.FillSplat M rand s x y numNodes radius innerRadius variation)
  | .FractalLine x1 y1 x2 y2 roughness iterations =>
    some (.ok (bitlibgo.FractalLine M rand s x1 y1 x2 y2 roughness iterations))
  | .strokeFractalLine x1 y1 x2 y2 roughness iterations =>
    some (.ok (bitlibgo.strokeFractalLine M rand s x1 y1 x2 y2 roughness iterations))
  | .Heart x y w h r => some (.ok (bitlibgo.Heart M s x y w h r))
  | .FillHeart x y w h r => some (.ok (bitlibgo.FillHeart M s x y w h r))
  | .StrokeHeart x y w h r => some (.ok (bitlibgo.StrokeHeart M s x y w h r))
  | .Points points radius => some (.ok (bitlibgo.Points M s points radius))
  | .StrokeCurveTo x0 y0 x1 y1 x2 y2 => some (.ok (bitlibgo.StrokeCurveTo s x0 y0 x1 y1 x2 y2))
  | .QuadraticCurveTo x0 y0 x1 y1 => some (.ok (bitlibgo.QuadraticCurveTo s x0 y0 x1 y1))
  | .StrokeQuadraticCurveTo x0 y0 x1 y1 =>
    some (.ok (bitlibgo.StrokeQuadraticCurveTo s x0 y0 x1 y1))
  | .MultiCurve points => some (bitlibgo.MultiCurve s points)
  | .StrokeMultiCurve points => some (bitlibgo.StrokeMultiCurve s points)
  | .MultiLoop points => some (bitlibgo.MultiLoop s points)
  | .FillMultiLoop points => some (bitlibgo.FillMultiLoop s points)
  | .StrokeMultiLoop points => some (bitlibgo.StrokeMultiLoop s points)
  | .Grid x y w h xres yres => (bitlibgo.Grid fuel s x y w h xres yres).map .ok

/-- The point at parameter `t` of the quadratic Bézier curve with control points
`p0`, `p1`, `p2` (one coordinate). -/
def quadraticBezier (p0 p1 p2 t : α) : α :=
  (1 - t) ^ 2 * p0 + 2 * (1 - t) * t * p1 + t ^ 2 * p2

/-- The point at parameter `t` of the cubic Bézier curve with control points `p0`,
`p1`, `p2`, `p3` (one coordinate). -/
def cubicBezier (p0 p1 p2 p3 t : α) : α :=
  (1 - t) ^ 3 * p0 + 3 * (1 - t) ^ 2 * t * p1 + 3 * (1 - t) * t ^ 2 * p2 + t ^ 3 * p3

/-- The calls issued by a run of `QuadraticCurveTo` calls, one for each pair
`(p0, p1)` of the list (control `p0`, end at the midpoint of `p0` and `p1`), started
with the current point at `cur`. -/
def curveCalls : α × α → List (Point α × Point α) → List (Call α)
  | _, [] => []
  | cur, (p0, p1) :: rest =>
    let midx := (p0.X + p1.X) / 2
    let midy := (p0.Y + p1.Y) / 2
    Call.CurveTo (2 / 3 * p0.X + 1 / 3 * cur.1) (2 / 3 * p0.Y + 1 / 3 * cur.2)
      (2 / 3 * p0.X + 1 / 3 * midx) (2 / 3 * p0.Y + 1 / 3 * midy) midx midy
      :: curveCalls (midx, midy) rest

end Shapes

end bitlibgo

namespace bitlibgo

open geom

section Counting

variable {α : Type}

/-- The number of `Save` calls in a list of backend calls. -/
def saves (cs : List (Call α)) : Nat :=
  cs.countP (fun c => match c with
    | .Save => true
    | _ => false)

/-- The number of `Restore` calls in a list of backend calls. -/
def restores (cs : List (Call α)) : Nat :=
  cs.countP (fun c => match c with
    | .Restore => true
    | _ => false)

end Counting

end bitlibgo

/-! ## Numeric utilities -/

namespace bitmath

section

variable {α : Type} [LinearOrderedField α]

theorem eq_of_range_of_congr (a b lo hi : α) (h : lo < hi) (ha : lo ≤ a ∧ a < hi)
    (hb : lo ≤ b ∧ b < hi) (k : Int) (hk : a = b + (k : α) * (hi - lo)) : a = b := by
  have hr : 0 < hi - lo := sub_pos.mpr h
  have hk0 : k = 0 := by
    by_contra hne
    rcases lt_or_gt_of_ne hne with hneg | hpos
    · have : (k : α) ≤ -1 := by exact_mod_cast (show k ≤ -1 by omega)
      nlinarith [ha.1, hb.2]
    · have : (1 : α) ≤ k := by exact_mod_cast (show 1 ≤ k by omega)
      nlinarith [ha.2, hb.1]
  rw [hk, hk0]; simp

end

section

variable {α : Type} [LinearOrderedField α] [FloorRing α]

theorem Mod_nonneg_range (x y : α) (hy : 0 < y) (hx : 0 ≤ x) :
    0 ≤ Mod x y ∧ Mod x y < y := by
  have hq : 0 ≤ x / y := div_nonneg hx hy.le
  have h1 : (⌊x / y⌋ : α) ≤ x / y := Int.floor_le _
  have h2 : x / y < ⌊x / y⌋ + 1 := Int.lt_floor_add_one _
  have hx' : x = y * (x / y) := by field_simp
  unfold Mod trunc
  rw [if_pos hq]
  constructor
  · nlinarith [mul_le_mul_of_nonneg_left h1 hy.le]
  · nlinarith [mul_lt_mul_of_pos_left h2 hy]

theorem Mod_range (x y : α) (hy : 0 < y) : -y < Mod x y ∧ Mod x y < y := by
  by_cases hx : 0 ≤ x
  · have := Mod_nonneg_range x y hy hx
    exact ⟨by linarith, this.2⟩
  · have hx0 : x < 0 := lt_of_not_ge hx
    have hq : ¬ 0 ≤ x / y := not_le.mpr (div_neg_of_neg_of_pos hx0 hy)
    have h1 : x / y ≤ (⌈x / y⌉ : α) := Int.le_ceil _
    have h2 : (⌈x / y⌉ : α) < x / y + 1 := Int.ceil_lt_add_one _
    have hx' : x = y * (x / y) := by field_simp
    unfold Mod trunc
    rw [if_neg hq]
    constructor
    · nlinarith [mul_lt_mul_of_pos_left h2 hy]
    · nlinarith [mul_le_mul_of_nonneg_left h1 hy.le]

theorem Wrap_eq_add_mul (v lo hi : α) : ∃ k : Int, Wrap v lo hi = v + (k : α) * (hi - lo) := by
  refine ⟨1 - (trunc ((v - lo) / (hi - lo)))
    - trunc ((Mod (v - lo) (hi - lo) + (hi - lo)) / (hi - lo)), ?_⟩
  simp only [Wrap, Mod]
  push_cast
  ring

theorem Wrap_range (v lo hi : α) (h : lo < hi) : lo ≤ Wrap v lo hi ∧ Wrap v lo hi < hi := by
  have hr : 0 < hi - lo := sub_pos.mpr h
  have h1 := Mod_range (v - lo) (hi - lo) hr
  have h2 := Mod_nonneg_range (Mod (v - lo) (hi - lo) + (hi - lo)) (hi - lo) hr
    (by linarith [h1.1])
  simp only [Wrap]
  constructor <;> linarith [h2.1, h2.2]

/-- C7: for `lo < hi`, `Wrap v lo hi` lies in the half-open interval `[lo, hi)`,
differs from `v` by an integer multiple of `hi - lo` (for negative `v` too, with the
truncating remainder of `math.Mod`), and so does not change when an integer multiple
of `hi - lo` is added to `v`. -/
theorem Wrap_spec (v lo hi : α) (h : lo < hi) :
    (lo ≤ Wrap v lo hi ∧ Wrap v lo hi < hi) ∧
    (∃ k : Int, Wrap v lo hi = v + (k : α) * (hi - lo)) ∧
    (∀ k : Int, Wrap (v + (k : α) * (hi - lo)) lo hi = Wrap v lo hi) := by
  refine ⟨Wrap_range v lo hi h, Wrap_eq_add_mul v lo hi, ?_⟩
  intro k
  obtain ⟨m, hm⟩ := Wrap_eq_add_mul (v + (k : α) * (hi - lo)) lo hi
  obtain ⟨n, hn⟩ := Wrap_eq_add_mul v lo hi
  refine eq_of_range_of_congr _ _ lo hi h (Wrap_range _ lo hi h) (Wrap_range v lo hi h)
    (m + k - n) ?_
  rw [hm, hn]; push_cast; ring

theorem Wrap_spec_witness :
    (0 : ℚ) < 5 ∧
    ((0 ≤ Wrap (-7 : ℚ) 0 5 ∧ Wrap (-7 : ℚ) 0 5 < 5) ∧
    (∃ k : Int, Wrap (-7 : ℚ) 0 5 = -7 + (k : ℚ) * (5 - 0)) ∧
    (∀ k : Int, Wrap (-7 + (k : ℚ) * (5 - 0)) 0 5 = Wrap (-7 : ℚ) 0 5)) :=
  ⟨by norm_num, Wrap_spec (-7) 0 5 (by norm_num)⟩

end

section

variable {α : Type} [LinearOrderedField α]

/-- C8: with the bounds in either order, `Clamp v a b` lies in
`[min a b, max a b]`, is `v` itself when `v` is already in that interval, and
clamping a second time changes nothing. -/
theorem Clamp_spec (v a b : α) :
    (min a b ≤ Clamp v a b ∧ Clamp v a b ≤ max a b) ∧
    (min a b ≤ v ∧ v ≤ max a b → Clamp v a b = v) ∧
    Clamp (Clamp v a b) a b = Clamp v a b := by
  unfold Clamp
  simp only [gt_iff_lt]
  rcases le_total a b with hab | hab
  · rw [min_eq_left hab, max_eq_right hab]
    split_ifs <;> refine ⟨⟨?_, ?_⟩, ?_, ?_⟩ <;> (intros; linarith)
  · rw [min_eq_right hab, max_eq_left hab]
    split_ifs <;> refine ⟨⟨?_, ?_⟩, ?_, ?_⟩ <;> (intros; linarith)

theorem Clamp_spec_witness :
    (min (5 : ℚ) 0 ≤ Clamp 3 5 0 ∧ Clamp (3 : ℚ) 5 0 ≤ max 5 0) ∧
    (min (5 : ℚ) 0 ≤ 3 ∧ (3 : ℚ) ≤ max 5 0 → Clamp (3 : ℚ) 5 0 = 3) ∧
    Clamp (Clamp (3 : ℚ) 5 0) 5 0 = Clamp 3 5 0 :=
  Clamp_spec 3 5 0

/-- C9: for `lo ≠ hi`, mapping `Lerp t lo hi` from the range `lo..hi` to the same
range gives `Lerp t lo hi` back, `MapTo` being `Lerp` after `Norm`; and `Norm` undoes
`Lerp`. -/
theorem MapTo_Lerp_roundtrip (t lo hi : α) (h : lo ≠ hi) :
    MapTo (Lerp t lo hi) lo hi lo hi = Lerp t lo hi ∧
    (∀ v sLo sHi dLo dHi : α, MapTo v sLo sHi dLo dHi = Lerp (Norm v sLo sHi) dLo dHi) ∧
    Norm (Lerp t lo hi) lo hi = t := by
  have hne : hi - lo ≠ 0 := sub_ne_zero.mpr (Ne.symm h)
  have hn : Norm (Lerp t lo hi) lo hi = t := by
    unfold Norm Lerp
    field_simp
  exact ⟨by simp only [MapTo, hn], fun _ _ _ _ _ => rfl, hn⟩

theorem MapTo_Lerp_roundtrip_witness :
    (2 : ℚ) ≠ 5 ∧
    (MapTo (Lerp (3 : ℚ) 2 5) 2 5 2 5 = Lerp 3 2 5 ∧
    (∀ v sLo sHi dLo dHi : ℚ, MapTo v sLo sHi dLo dHi = Lerp (Norm v sLo sHi) dLo dHi) ∧
    Norm (Lerp (3 : ℚ) 2 5) 2 5 = 3) :=
  ⟨by norm_num, MapTo_Lerp_roundtrip 3 2 5 (by norm_num)⟩

end

end bitmath

/-! ## Shape library -/

namespace bitlibgo

open geom

section

variable {α : Type} [LinearOrderedField α]

/-- C1: the cubic Bézier curve with control points `P`, `c1`, `c2`, `E` that
`QuadraticCurveTo` hands to `CurveTo` passes, at every parameter `t`, through the
point of the quadratic Bézier curve with control points `P`, `C = (x0, y0)`,
`E = (x1, y1)`, where `P` is the current point. -/
theorem QuadraticCurveTo_equivalent_cubic (s : BitSurface α) (x0 y0 x1 y1 : α) :
    ∃ c1x c1y c2x c2y : α,
      (QuadraticCurveTo s x0 y0 x1 y1).calls = s.calls ++ [Call.CurveTo c1x c1y c2x c2y x1 y1] ∧
      ∀ t : α,
        cubicBezier s.GetCurrentPoint.1 c1x c2x x1 t
          = quadraticBezier s.GetCurrentPoint.1 x0 x1 t ∧
        cubicBezier s.GetCurrentPoint.2 c1y c2y y1 t
          = quadraticBezier s.GetCurrentPoint.2 y0 y1 t := by
  refine ⟨_, _, _, _, rfl, ?_⟩
  intro t
  simp only [cubicBezier, quadraticBezier, BitSurface.GetCurrentPoint]
  constructor <;> ring

/-- C2: `QuadraticCurveTo` issues exactly one backend call, `CurveTo c1 c2 E` with
`c1 = P + 2/3 (C - P)` and `c2 = E + 2/3 (C - E)`, `P` being the point returned by
`GetCurrentPoint`; with current point `(0, 0)`, `QuadraticCurveTo 4 0 8 0` issues
`CurveTo (8/3) 0 (16/3) 0 8 0`. -/
theorem QuadraticCurveTo_calls (s : BitSurface α) (x0 y0 x1 y1 : α) :
    (QuadraticCurveTo s x0 y0 x1 y1).calls = s.calls ++
      [Call.CurveTo
        (s.GetCurrentPoint.1 + 2 / 3 * (x0 - s.GetCurrentPoint.1))
        (s.GetCurrentPoint.2 + 2 / 3 * (y0 - s.GetCurrentPoint.2))
        (x1 + 2 / 3 * (x0 - x1)) (y1 + 2 / 3 * (y0 - y1)) x1 y1] ∧
    ∀ calls transform saved,
      (QuadraticCurveTo (BitSurface.mk calls ((0 : α), (0 : α)) transform saved) 4 0 8 0).calls
        = calls ++ [Call.CurveTo (8 / 3) 0 (16 / 3) 0 8 0] := by
  constructor
  · simp only [QuadraticCurveTo, BitSurface.CurveTo, BitSurface.issue,
      BitSurface.GetCurrentPoint]
    congr 2
    congr 1 <;> ring
  · intro calls transform saved
    simp only [QuadraticCurveTo, BitSurface.CurveTo, BitSurface.issue,
      BitSurface.GetCurrentPoint]
    norm_num

end

end bitlibgo

namespace bitlibgo

open geom

theorem Path_calls {β : Type} (s : BitSurface β) (points : List (Point β)) :
    (Path s points).calls = s.calls ++ points.map (fun p => Call.LineTo p.X p.Y) := by
  unfold Path
  induction points generalizing s with
  | nil => simp
  | cons p rest ih =>
    rw [List.foldl_cons, ih]
    simp [BitSurface.LineTo, BitSurface.issue]

section

variable {α : Type} [LinearOrderedField α]

theorem fractalPass_length (rand : Nat → α) (offset : α) (n : Nat) (path : List (Point α)) :
    (fractalPass rand offset n path).1.length = 2 * path.length - 1 := by
  induction path generalizing n with
  | nil => simp [fractalPass]
  | cons p rest ih =>
    cases rest with
    | nil => simp [fractalPass]
    | cons q rest =>
      have := ih (n + 2)
      simp only [fractalPass, List.length_cons] at this ⊢
      omega

theorem fractalLoop_length (rand : Nat → α) (roughness : α) (k : Nat) :
    ∀ (st : List (Point α) × α × Nat),
      ((List.range k).foldl (fun (st : List (Point α) × α × Nat) _ =>
        let (path, offset, n) := st
        let (newPath, n) := fractalPass rand offset n path
        (newPath, offset * roughness, n)) st).1.length = 2 ^ k * (st.1.length - 1) + 1 ∨
      st.1.length = 0 := by
  induction k with
  | zero =>
    intro st
    rcases Nat.eq_zero_or_pos st.1.length with h | h
    · exact Or.inr h
    · left
      simp only [List.range_zero, List.foldl_nil, pow_zero, one_mul]
      omega
  | succ k ih =>
    intro st
    rcases Nat.eq_zero_or_pos st.1.length with h | h
    · exact Or.inr h
    · left
      rw [List.range_succ, List.foldl_append]
      rcases ih st with h1 | h1
      · simp only [List.foldl_cons, List.foldl_nil]
        rw [fractalPass_length, h1, pow_succ]
        have : 1 ≤ 2 ^ k * (st.1.length - 1) + 1 := by omega
        have e : 2 * (2 ^ k * (st.1.length - 1) + 1) - 1 = 2 ^ k * 2 * (st.1.length - 1) + 1 := by
          have : 2 * (2 ^ k * (st.1.length - 1) + 1) = 2 ^ k * 2 * (st.1.length - 1) + 2 := by
            ring
          omega
        exact e
      · omega

/-- C6: for every start and end point, roughness, sequence of random samples and
`iterations = k ≥ 0`, the path that `FractalLine` hands to `Path` has exactly
`2 ^ k + 1` points, `FractalLine` issues one `LineTo` per point of it and nothing
else, and with `k = 0` the path is the two-point path `[(x1, y1), (x2, y2)]`. -/
theorem FractalLine_path_length (M : GoMath α) (rand : Nat → α) (s : BitSurface α)
    (x1 y1 x2 y2 roughness : α) (k : Nat) :
    (fractalPath M rand x1 y1 x2 y2 roughness (k : Int)).length = 2 ^ k + 1 ∧
    (FractalLine M rand s x1 y1 x2 y2 roughness (k : Int)).calls = s.calls ++
      (fractalPath M rand x1 y1 x2 y2 roughness (k : Int)).map (fun p => Call.LineTo p.X p.Y) ∧
    fractalPath M rand x1 y1 x2 y2 roughness 0 = [NewPoint x1 y1, NewPoint x2 y2] := by
  refine ⟨?_, Path_calls _ _, ?_⟩
  · unfold fractalPath
    simp only [Int.toNat_ofNat]
    rcases fractalLoop_length rand roughness k
      ([NewPoint x1 y1, NewPoint x2 y2],
        M.Sqrt ((x2 - x1) * (x2 - x1) + (y2 - y1) * (y2 - y1)) * 0.15, 0)
      with h | h
    · simpa using h
    · simp at h
  · simp [fractalPath]

end

section Real

/-- C5: `RoundRectangle` issues `MoveTo (x+r) y` and then four `LineTo`/`Arc` pairs.
Each arc of centre `(cx, cy)` and angles `a0`, `a1` starts, at
`(cx + r cos a0, cy + r sin a0)`, on the target of the `LineTo` before it; the
`LineTo` after it leaves from the arc's end `(cx + r cos a1, cy + r sin a1)` along a
side of the rectangle; the last arc, of centre `(x+r, y+r)` and angles `π` to
`-π/2`, ends on the opening point `(x+r, y)`.  For `RoundRectangle 0 0 10 10 2` the
first arc has centre `(8, 2)` and angles `(-π/2, 0)`, the last one centre `(2, 2)`
and angles `(π, -π/2)`. -/
theorem RoundRectangle_closed_path (M : GoMath ℝ) (hpi : M.Pi = Real.pi)
    (s : BitSurface ℝ) (x y w h r : ℝ) :
    (∃ l1 l2 l3 l4 c1 c2 c3 c4 : ℝ × ℝ, ∃ a1 a2 a3 a4 : ℝ × ℝ,
      (RoundRectangle M s x y w h r).calls = s.calls ++
        [Call.MoveTo (x + r) y,
         Call.LineTo l1.1 l1.2, Call.Arc c1.1 c1.2 r a1.1 a1.2,
         Call.LineTo l2.1 l2.2, Call.Arc c2.1 c2.2 r a2.1 a2.2,
         Call.LineTo l3.1 l3.2, Call.Arc c3.1 c3.2 r a3.1 a3.2,
         Call.LineTo l4.1 l4.2, Call.Arc c4.1 c4.2 r a4.1 a4.2] ∧
      -- the first edge runs along the top side, from the opening point
      l1.2 = y ∧
      -- every arc starts where the edge before it ends
      (c1.1 + r * Real.cos a1.1, c1.2 + r * Real.sin a1.1) = l1 ∧
      (c2.1 + r * Real.cos a2.1, c2.2 + r * Real.sin a2.1) = l2 ∧
      (c3.1 + r * Real.cos a3.1, c3.2 + r * Real.sin a3.1) = l3 ∧
      (c4.1 + r * Real.cos a4.1, c4.2 + r * Real.sin a4.1) = l4 ∧
      -- the ends of the arcs: on the right, bottom and left sides, and the opening point
      (c1.1 + r * Real.cos a1.2, c1.2 + r * Real.sin a1.2) = (x + w, y + r) ∧
      (c2.1 + r * Real.cos a2.2, c2.2 + r * Real.sin a2.2) = (x + w - r, y + h) ∧
      (c3.1 + r * Real.cos a3.2, c3.2 + r * Real.sin a3.2) = (x, y + h - r) ∧
      (c4.1 + r * Real.cos a4.2, c4.2 + r * Real.sin a4.2) = (x + r, y) ∧
      -- the edge after an arc stays on the side where the arc ends
      l2.1 = x + w ∧ l3.2 = y + h ∧ l4.1 = x ∧
      -- the last arc
      c4 = (x + r, y + r) ∧ a4 = (Real.pi, -(Real.pi / 2))) ∧
    (RoundRectangle M s 0 0 10 10 2).calls = s.calls ++
      [Call.MoveTo 2 0,
       Call.LineTo 8 0, Call.Arc 8 2 2 (-(Real.pi / 2)) 0,
       Call.LineTo 10 8, Call.Arc 8 8 2 0 (Real.pi / 2),
       Call.LineTo 2 10, Call.Arc 2 8 2 (Real.pi / 2) Real.pi,
       Call.LineTo 0 2, Call.Arc 2 2 2 Real.pi (-(Real.pi / 2))] := by
  constructor
  · refine ⟨(x + w - r, y), (x + w, y + h - r), (x + r, y + h), (x, y + r),
      (x + w - r, y + r), (x + w - r, y + h - r), (x + r, y + h - r), (x + r, y + r),
      (-(Real.pi / 2), 0), (0, Real.pi / 2), (Real.pi / 2, Real.pi), (Real.pi, -(Real.pi / 2)),
      ?_, ?_⟩
    · simp [RoundRectangle, BitSurface.MoveTo, BitSurface.LineTo, BitSurface.Arc,
        BitSurface.issue, bitmath.HalfPi, hpi]
    · simp only [Real.cos_neg, Real.sin_neg, Real.cos_pi_div_two, Real.sin_pi_div_two,
        Real.cos_zero, Real.sin_zero, Real.cos_pi, Real.sin_pi, Prod.mk.injEq]
      refine ⟨trivial, ?_, ?_, ?_, ?_, ?_, ?_, ?_, ?_, trivial, trivial, trivial, trivial,
        trivial⟩ <;> constructor <;> ring
  · simp [RoundRectangle, BitSurface.MoveTo, BitSurface.LineTo, BitSurface.Arc,
      BitSurface.issue, bitmath.HalfPi, hpi]
    norm_num

theorem RoundRectangle_closed_path_witness :
    (GoMath.mk Real.pi Real.sqrt Real.cos Real.sin (fun y x => Complex.arg ⟨x, y⟩)
      (fun p q => Real.sqrt (p * p + q * q)) (fun b e => b ^ e)).Pi = Real.pi ∧
    (RoundRectangle
      (GoMath.mk Real.pi Real.sqrt Real.cos Real.sin (fun y x => Complex.arg ⟨x, y⟩)
        (fun p q => Real.sqrt (p * p + q * q)) (fun b e => b ^ e))
      (BitSurface.mk [] (0, 0) [] []) 0 0 10 10 2).calls = [] ++
      [Call.MoveTo 2 0,
       Call.LineTo 8 0, Call.Arc 8 2 2 (-(Real.pi / 2)) 0,
       Call.LineTo 10 8, Call.Arc 8 8 2 0 (Real.pi / 2),
       Call.LineTo 2 10, Call.Arc 2 8 2 (Real.pi / 2) Real.pi,
       Call.LineTo 0 2, Call.Arc 2 2 2 Real.pi (-(Real.pi / 2))] :=
  ⟨rfl, (RoundRectangle_closed_path _ rfl _ 0 0 10 10 2).2⟩

end Real

end bitlibgo

namespace bitlibgo

open geom

section

variable {α : Type} [LinearOrderedField α]

theorem replay_append {β : Type} (s : BitSurface β) (cs ds : List (Call β)) :
    s.replay (cs ++ ds) = (s.replay cs).replay ds := by
  simp [BitSurface.replay, List.foldl_append]

theorem replay_calls {β : Type} (s : BitSurface β) (cs : List (Call β)) :
    (s.replay cs).calls = s.calls ++ cs := by
  induction cs generalizing s with
  | nil => simp [BitSurface.replay]
  | cons c cs ih =>
    have h : s.replay (c :: cs) = (s.issue c).replay cs := rfl
    rw [h, ih]
    cases c <;> simp [BitSurface.issue]
    split <;> simp

/-- One pass of the loops of `MultiCurve` and `MultiLoop`, on the pair
`(points[i], points[i+1])`. -/
theorem curveToMidpoint_ok (pts : List (Point α)) (s : BitSurface α) (i : Nat) (p q : Point α)
    (hp : pts[i]? = some p) (hq : pts[i + 1]? = some q) :
    curveToMidpoint pts s i =
      .ok (QuadraticCurveTo s p.X p.Y ((p.X + q.X) / 2) ((p.Y + q.Y) / 2)) := by
  simp [curveToMidpoint, hp, hq]

theorem zip_tail_getElem? {β : Type} (pts : List β) (i : Nat)
    (h : i < (pts.zip pts.tail).length) :
    pts[i]? = some (pts.zip pts.tail)[i].1 ∧ pts[i + 1]? = some (pts.zip pts.tail)[i].2 := by
  have h1 : (pts.zip pts.tail)[i]? = some (pts.zip pts.tail)[i] := List.getElem?_eq_getElem h
  rw [List.getElem?_zip_eq_some] at h1
  refine ⟨h1.1, ?_⟩
  rw [← h1.2, List.getElem?_tail]

/-- The loop over `i = k, ..., k+m-1` is a left fold of `QuadraticCurveTo` over the
pairs of neighbours `(points[i], points[i+1])`; it never reads out of range. -/
theorem curve_loop (pts : List (Point α)) (m : Nat) :
    ∀ (k : Nat) (s : BitSurface α), k + m ≤ (pts.zip pts.tail).length →
      (List.range' k m).foldlM (curveToMidpoint pts) s =
        .ok ((((pts.zip pts.tail).drop k).take m).foldl (fun s pq =>
          QuadraticCurveTo s pq.1.X pq.1.Y ((pq.1.X + pq.2.X) / 2) ((pq.1.Y + pq.2.Y) / 2)) s) := by
  induction m with
  | zero => intro k s _; simp [pure, Except.pure]
  | succ m ih =>
    intro k s hk
    have hlt : k < (pts.zip pts.tail).length := by omega
    obtain ⟨h1, h2⟩ := zip_tail_getElem? pts k hlt
    rw [List.range'_succ, List.foldlM_cons, curveToMidpoint_ok pts s k _ _ h1 h2,
      List.drop_eq_getElem_cons hlt, List.take_succ_cons, List.foldl_cons]
    exact ih (k + 1) _ (by omega)

/-- A run of `QuadraticCurveTo` calls issues the calls of `curveCalls`, changes
neither the transform nor the stack of saved transforms, and is the replay of those
calls. -/
theorem curve_fold (L : List (Point α × Point α)) :
    ∀ s : BitSurface α,
      L.foldl (fun s pq =>
          QuadraticCurveTo s pq.1.X pq.1.Y ((pq.1.X + pq.2.X) / 2) ((pq.1.Y + pq.2.Y) / 2)) s
        = s.replay (curveCalls s.current L) := by
  induction L with
  | nil => intro s; rfl
  | cons pq L ih =>
    intro s
    obtain ⟨p, q⟩ := pq
    rw [List.foldl_cons, ih]
    rfl

theorem curveCalls_length (L : List (Point α × Point α)) :
    ∀ cur : α × α, (curveCalls cur L).length = L.length := by
  induction L with
  | nil => intro cur; rfl
  | cons pq L ih => intro cur; obtain ⟨p, q⟩ := pq; simp [curveCalls, ih]

/-- The `j`-th call of a run: a `CurveTo` whose second control point and end come
from the `j`-th pair. -/
theorem curveCalls_getElem? (L : List (Point α × Point α)) :
    ∀ (cur : α × α) (j : Nat) (p q : Point α), L[j]? = some (p, q) →
      ∃ c1x c1y, (curveCalls cur L)[j]? = some (Call.CurveTo c1x c1y
        (2 / 3 * p.X + 1 / 3 * ((p.X + q.X) / 2)) (2 / 3 * p.Y + 1 / 3 * ((p.Y + q.Y) / 2))
        ((p.X + q.X) / 2) ((p.Y + q.Y) / 2)) := by
  induction L with
  | nil => intro cur j p q h; simp at h
  | cons pq L ih =>
    intro cur j p q h
    obtain ⟨p0, q0⟩ := pq
    cases j with
    | zero =>
      simp only [List.getElem?_cons_zero, Option.some.injEq, Prod.mk.injEq] at h
      obtain ⟨rfl, rfl⟩ := h
      exact ⟨2 / 3 * p0.X + 1 / 3 * cur.1, 2 / 3 * p0.Y + 1 / 3 * cur.2, by simp [curveCalls]⟩
    | succ j =>
      simp only [List.getElem?_cons_succ] at h
      obtain ⟨c1x, c1y, hc⟩ := ih ((p0.X + q0.X) / 2, (p0.Y + q0.Y) / 2) j p q h
      exact ⟨c1x, c1y, by simpa [curveCalls] using hc⟩

/-- The call after the `j`-th one: its first control point comes from the end of the
`j`-th curve, which is the current point when it is issued. -/
theorem curveCalls_getElem?_succ (L : List (Point α × Point α)) :
    ∀ (cur : α × α) (j : Nat) (p q p' q' : Point α), L[j]? = some (p, q) →
      L[j + 1]? = some (p', q') →
      (curveCalls cur L)[j + 1]? = some (Call.CurveTo
        (2 / 3 * p'.X + 1 / 3 * ((p.X + q.X) / 2)) (2 / 3 * p'.Y + 1 / 3 * ((p.Y + q.Y) / 2))
        (2 / 3 * p'.X + 1 / 3 * ((p'.X + q'.X) / 2)) (2 / 3 * p'.Y + 1 / 3 * ((p'.Y + q'.Y) / 2))
        ((p'.X + q'.X) / 2) ((p'.Y + q'.Y) / 2)) := by
  induction L with
  | nil => intro cur j p q p' q' h; simp at h
  | cons pq L ih =>
    intro cur j p q p' q' h h'
    obtain ⟨p0, q0⟩ := pq
    cases j with
    | zero =>
      simp only [List.getElem?_cons_zero, Option.some.injEq, Prod.mk.injEq] at h
      obtain ⟨rfl, rfl⟩ := h
      cases L with
      | nil => simp at h'
      | cons pq1 L =>
        obtain ⟨p1, q1⟩ := pq1
        simp only [zero_add, List.getElem?_cons_succ, List.getElem?_cons_zero,
          Option.some.injEq, Prod.mk.injEq] at h'
        obtain ⟨rfl, rfl⟩ := h'
        simp [curveCalls]
    | succ j =>
      simp only [List.getElem?_cons_succ] at h h'
      have := ih ((p0.X + q0.X) / 2, (p0.Y + q0.Y) / 2) j p q p' q' h h'
      simpa [curveCalls] using this

end

end bitlibgo

namespace bitlibgo

open geom

section

variable {α : Type} [LinearOrderedField α]

theorem zip_rotate_one {β : Type} (pts : List β) (h : pts ≠ []) :
    pts.zip (pts.rotate 1) = pts.zip pts.tail ++ [(pts.getLast h, pts.head h)] := by
  obtain ⟨a, t, rfl⟩ := List.exists_cons_of_ne_nil h
  have hr : (a :: t).rotate 1 = t ++ [a] := by simp [List.rotate_cons_succ]
  have hlen : (a :: t).dropLast.length = t.length := by simp
  have hsplit := List.dropLast_append_getLast h
  rw [hr]
  simp only [List.tail_cons, List.head_cons]
  have e1 : (a :: t).zip (t ++ [a])
      = ((a :: t).dropLast ++ [(a :: t).getLast h]).zip (t ++ [a]) := by rw [hsplit]
  have e2 : (a :: t).zip t
      = ((a :: t).dropLast ++ [(a :: t).getLast h]).zip (t ++ []) := by
    rw [hsplit, List.append_nil]
  rw [e1, e2, List.zip_append hlen, List.zip_append hlen]
  simp

theorem QuadraticCurveTo_current (s : BitSurface α) (x0 y0 x1 y1 : α) :
    (QuadraticCurveTo s x0 y0 x1 y1).current = (x1, y1) := rfl

/-- C3: on a non-empty point list `p_0, ..., p_{n-1}`, `MultiLoop` returns normally;
it first issues `MoveTo m1`, `m1` the midpoint of `p_{n-1}` and `p_0`, and then
exactly `n` curves, the `i`-th being `QuadraticCurveTo` with control `p_i` and end
the midpoint of `p_i` and `p_{(i+1) mod n}`; the last curve ends on `m1`, where the
current point is left.  On `[(0,0), (10,0), (10,10), (0,10)]` the calls begin with
`MoveTo 0 5` and the last curve ends at `(0, 5)`. -/
theorem MultiLoop_closed_loop (s : BitSurface α) (pts : List (Point α)) (h : pts ≠ []) :
    (∃ (s' : BitSurface α) (segs : List (Call α)) (m1x m1y : α),
      m1x = ((pts.getLast h).X + (pts.head h).X) / 2 ∧
      m1y = ((pts.getLast h).Y + (pts.head h).Y) / 2 ∧
      MultiLoop s pts = .ok s' ∧
      s'.calls = s.calls ++ Call.MoveTo m1x m1y :: segs ∧
      segs.length = pts.length ∧
      s' = (pts.zip (pts.rotate 1)).foldl (fun s pq =>
          QuadraticCurveTo s pq.1.X pq.1.Y ((pq.1.X + pq.2.X) / 2) ((pq.1.Y + pq.2.Y) / 2))
        (s.MoveTo m1x m1y) ∧
      (∀ (i : Nat) (p q : Point α), pts[i]? = some p → pts[(i + 1) % pts.length]? = some q →
        (pts.zip (pts.rotate 1))[i]? = some (p, q) ∧
        ∃ c1x c1y, segs[i]? = some (Call.CurveTo c1x c1y
          (2 / 3 * p.X + 1 / 3 * ((p.X + q.X) / 2)) (2 / 3 * p.Y + 1 / 3 * ((p.Y + q.Y) / 2))
          ((p.X + q.X) / 2) ((p.Y + q.Y) / 2))) ∧
      (∃ c1x c1y c2x c2y, segs.getLast? = some (Call.CurveTo c1x c1y c2x c2y m1x m1y)) ∧
      s'.GetCurrentPoint = (m1x, m1y)) ∧
    (∃ s' : BitSurface α,
      MultiLoop s [NewPoint 0 0, NewPoint 10 0, NewPoint 10 10, NewPoint 0 10] = .ok s' ∧
      s'.calls = s.calls ++
        [Call.MoveTo 0 5,
         Call.CurveTo 0 (5 / 3) (5 / 3) 0 5 0,
         Call.CurveTo (25 / 3) 0 10 (5 / 3) 10 5,
         Call.CurveTo 10 (25 / 3) (25 / 3) 10 5 10,
         Call.CurveTo (5 / 3) 10 0 (25 / 3) 0 5]) := by
  constructor
  · have hpos : 0 < pts.length := List.length_pos.mpr h
    have hA : pts[0]? = some (pts.head h) := by
      rw [← List.head?_eq_getElem?, List.head?_eq_head h]
    have hZ : pts[pts.length - 1]? = some (pts.getLast h) := by
      rw [← List.getLast?_eq_getElem?, List.getLast?_eq_getLast _ h]
    have hLlen : (pts.zip pts.tail).length = pts.length - 1 := by
      simp [List.length_zip]
    have hloop := curve_loop pts (pts.length - 1) 0
      (s.MoveTo (((pts.getLast h).X + (pts.head h).X) / 2)
        (((pts.getLast h).Y + (pts.head h).Y) / 2)) (by omega)
    rw [List.drop_zero, List.take_of_length_le (by omega)] at hloop
    have hrun : MultiLoop s pts = .ok ((pts.zip (pts.rotate 1)).foldl (fun s pq =>
          QuadraticCurveTo s pq.1.X pq.1.Y ((pq.1.X + pq.2.X) / 2) ((pq.1.Y + pq.2.Y) / 2))
        (s.MoveTo (((pts.getLast h).X + (pts.head h).X) / 2)
          (((pts.getLast h).Y + (pts.head h).Y) / 2))) := by
      unfold MultiLoop
      rw [hA, hZ]
      simp only [List.range_eq_range', bind, Except.bind, hloop, zip_rotate_one pts h,
        List.foldl_append, List.foldl_cons, List.foldl_nil]
      rfl
    have hRlen : (pts.zip (pts.rotate 1)).length = pts.length := by
      simp [List.length_zip]
    refine ⟨_, curveCalls (((pts.getLast h).X + (pts.head h).X) / 2,
        ((pts.getLast h).Y + (pts.head h).Y) / 2) (pts.zip (pts.rotate 1)), _, _, rfl, rfl,
      hrun, ?_, ?_, rfl, ?_, ?_, ?_⟩
    · rw [curve_fold, replay_calls]
      simp [BitSurface.MoveTo, BitSurface.issue]
    · rw [curveCalls_length, hRlen]
    · intro i p q hp hq
      have hi : i < pts.length := (List.getElem?_eq_some.mp hp).1
      have hR : (pts.zip (pts.rotate 1))[i]? = some (p, q) := by
        rw [List.getElem?_zip_eq_some]
        exact ⟨hp, by rw [List.getElem?_rotate hi]; exact hq⟩
      exact ⟨hR, curveCalls_getElem? _ _ i p q hR⟩
    · have hlast : (pts.zip (pts.rotate 1))[pts.length - 1]?
          = some (pts.getLast h, pts.head h) := by
        rw [zip_rotate_one pts h, List.getElem?_append_right (by omega)]
        simp [hLlen]
      obtain ⟨c1x, c1y, hc⟩ := curveCalls_getElem? _
        (((pts.getLast h).X + (pts.head h).X) / 2, ((pts.getLast h).Y + (pts.head h).Y) / 2)
        _ _ _ hlast
      rw [List.getLast?_eq_getElem?, curveCalls_length, hRlen]
      exact ⟨c1x, c1y, _, _, hc⟩
    · rw [zip_rotate_one pts h, List.foldl_append]
      rfl
  · refine ⟨_, rfl, ?_⟩
    simp [QuadraticCurveTo, BitSurface.CurveTo, BitSurface.MoveTo, BitSurface.issue,
      BitSurface.GetCurrentPoint, NewPoint]
    norm_num

theorem MultiLoop_closed_loop_witness :
    [NewPoint (0 : ℚ) 0, NewPoint 10 0, NewPoint 10 10] ≠ [] ∧
    ∃ (s' : BitSurface ℚ) (segs : List (Call ℚ)),
      MultiLoop (BitSurface.mk [] (0, 0) [] [])
        [NewPoint (0 : ℚ) 0, NewPoint 10 0, NewPoint 10 10] = .ok s' ∧
      s'.calls = Call.MoveTo 5 5 :: segs ∧ segs.length = 3 ∧
      (∃ c1x c1y c2x c2y, segs.getLast? = some (Call.CurveTo c1x c1y c2x c2y 5 5)) ∧
      s'.GetCurrentPoint = (5, 5) := by
  refine ⟨by simp, ?_⟩
  obtain ⟨⟨s', segs, m1x, m1y, hx, hy, hrun, hcalls, hlen, -, -, hlast, hcur⟩, -⟩ :=
    MultiLoop_closed_loop (BitSurface.mk [] ((0 : ℚ), (0 : ℚ)) [] [])
      [NewPoint (0 : ℚ) 0, NewPoint 10 0, NewPoint 10 10] (by simp)
  have hx5 : m1x = 5 := by rw [hx]; simp [NewPoint]; norm_num
  have hy5 : m1y = 5 := by rw [hy]; simp [NewPoint]; norm_num
  subst hx5 hy5
  exact ⟨s', segs, hrun, by simpa using hcalls, by simpa using hlen, hlast, hcur⟩

end

end bitlibgo

namespace bitlibgo

open geom

section

variable {α : Type} [LinearOrderedField α]

theorem replay_curveTo_current {β : Type} (s : BitSurface β) (cs : List (Call β))
    (x1 y1 x2 y2 x3 y3 : β) :
    (s.replay (cs ++ [Call.CurveTo x1 y1 x2 y2 x3 y3])).current = (x3, y3) := by
  rw [replay_append]
  rfl

/-- C4: on a point list of length `n ≥ 4`, at every `i` with `1 ≤ i ≤ n-3`,
`MultiCurve` returns normally, the cubic issued for control `p_i` ends at the
midpoint `E` of `p_i` and `p_{i+1}`, the next cubic (control `p_{i+1}`) is issued
with the current point at `E`, and the derivative `3 (E - c2)` of the first at its
end equals the derivative `3 (c1' - E)` of the next at its start, both being
`p_{i+1} - p_i`. -/
theorem MultiCurve_C1_continuity (s : BitSurface α) (pts : List (Point α)) (i : Nat)
    (hn : 4 ≤ pts.length) (h1 : 1 ≤ i) (h2 : i ≤ pts.length - 3) :
    ∃ (s' : BitSurface α) (tr : List (Call α)) (a b c : Point α),
      MultiCurve s pts = .ok s' ∧ s'.calls = s.calls ++ tr ∧
      pts[i]? = some a ∧ pts[i + 1]? = some b ∧ pts[i + 2]? = some c ∧
      ∃ c1x c1y c2x c2y ex ey d1x d1y d2x d2y fx fy : α,
        -- the segment for control `p_i` and the one after it, for control `p_{i+1}`
        tr[i + 1]? = some (Call.CurveTo c1x c1y c2x c2y ex ey) ∧
        tr[i + 2]? = some (Call.CurveTo d1x d1y d2x d2y fx fy) ∧
        ex = (a.X + b.X) / 2 ∧ ey = (a.Y + b.Y) / 2 ∧
        c2x = ex + 2 / 3 * (a.X - ex) ∧ c2y = ey + 2 / 3 * (a.Y - ey) ∧
        fx = (b.X + c.X) / 2 ∧ fy = (b.Y + c.Y) / 2 ∧
        d2x = fx + 2 / 3 * (b.X - fx) ∧ d2y = fy + 2 / 3 * (b.Y - fy) ∧
        -- the second segment starts at the end of the first
        (s.replay (tr.take (i + 2))).GetCurrentPoint = (ex, ey) ∧
        d1x = ex + 2 / 3 * (b.X - ex) ∧ d1y = ey + 2 / 3 * (b.Y - ey) ∧
        -- the derivatives at the joint
        3 * (ex - c2x) = b.X - a.X ∧ 3 * (d1x - ex) = b.X - a.X ∧
        3 * (ey - c2y) = b.Y - a.Y ∧ 3 * (d1y - ey) = b.Y - a.Y := by
  obtain ⟨j, rfl⟩ : ∃ j, i = j + 1 := ⟨i - 1, by omega⟩
  have hLlen : (pts.zip pts.tail).length = pts.length - 1 := by simp [List.length_zip]
  -- the points read
  obtain ⟨p0, hp0⟩ : ∃ p, pts[0]? = some p :=
    ⟨pts[0], List.getElem?_eq_getElem (by omega)⟩
  obtain ⟨p1, hp1⟩ : ∃ p, pts[1]? = some p :=
    ⟨pts[1], List.getElem?_eq_getElem (by omega)⟩
  obtain ⟨pl, hpl⟩ : ∃ p, pts[pts.length - 1]? = some p :=
    ⟨pts[pts.length - 1], List.getElem?_eq_getElem (by omega)⟩
  have hab := zip_tail_getElem? pts (j + 1) (by omega)
  have hbc := zip_tail_getElem? pts (j + 2) (by omega)
  have hLa : (pts.zip pts.tail)[j + 1]? = some (pts.zip pts.tail)[j + 1] :=
    List.getElem?_eq_getElem (by omega)
  have hLb : (pts.zip pts.tail)[j + 2]? = some (pts.zip pts.tail)[j + 2] :=
    List.getElem?_eq_getElem (by omega)
  generalize (pts.zip pts.tail)[j + 1] = ab at hab hLa
  generalize (pts.zip pts.tail)[j + 2] = bc at hbc hLb
  obtain ⟨a, b⟩ := ab
  obtain ⟨b', c⟩ := bc
  have hbb : b = b' := by
    have := hab.2
    rw [hbc.1] at this
    exact (Option.some.inj this).symm
  subst hbb
  simp only at hab hbc
  -- the loop
  have hloop := curve_loop pts (pts.length - 2) 1
    ((s.MoveTo p0.X p0.Y).LineTo ((p0.X + p1.X) / 2) ((p0.Y + p1.Y) / 2)) (by omega)
  rw [List.take_of_length_le (by simp [hLlen]; omega), curve_fold] at hloop
  have hrun : MultiCurve s pts = .ok
      ((((s.MoveTo p0.X p0.Y).LineTo ((p0.X + p1.X) / 2) ((p0.Y + p1.Y) / 2)).replay
        (curveCalls ((p0.X + p1.X) / 2, (p0.Y + p1.Y) / 2) ((pts.zip pts.tail).drop 1))).LineTo
          pl.X pl.Y) := by
    unfold MultiCurve
    simp only [hp0, hp1, bind, Except.bind, hloop, hpl]
    rfl
  -- the pairs of the two segments
  have hD1 : ((pts.zip pts.tail).drop 1)[j]? = some (a, b) := by
    rw [List.getElem?_drop, Nat.add_comm]; exact hLa
  have hD2 : ((pts.zip pts.tail).drop 1)[j + 1]? = some (b, c) := by
    rw [List.getElem?_drop, show 1 + (j + 1) = j + 2 by omega]; exact hLb
  obtain ⟨c1x, c1y, hc⟩ := curveCalls_getElem? ((pts.zip pts.tail).drop 1)
    ((p0.X + p1.X) / 2, (p0.Y + p1.Y) / 2) j a b hD1
  have hd := curveCalls_getElem?_succ ((pts.zip pts.tail).drop 1)
    ((p0.X + p1.X) / 2, (p0.Y + p1.Y) / 2) j a b b c hD1 hD2
  have hjlen : j + 1 < (curveCalls ((p0.X + p1.X) / 2, (p0.Y + p1.Y) / 2)
      ((pts.zip pts.tail).drop 1)).length := by
    rw [curveCalls_length, List.length_drop, hLlen]; omega
  refine ⟨_, Call.MoveTo p0.X p0.Y :: Call.LineTo ((p0.X + p1.X) / 2) ((p0.Y + p1.Y) / 2) ::
      (curveCalls ((p0.X + p1.X) / 2, (p0.Y + p1.Y) / 2) ((pts.zip pts.tail).drop 1)
        ++ [Call.LineTo pl.X pl.Y]), a, b, c, hrun, ?_, hab.1, hab.2, hbc.2,
    c1x, c1y, 2 / 3 * a.X + 1 / 3 * ((a.X + b.X) / 2), 2 / 3 * a.Y + 1 / 3 * ((a.Y + b.Y) / 2),
    (a.X + b.X) / 2, (a.Y + b.Y) / 2,
    2 / 3 * b.X + 1 / 3 * ((a.X + b.X) / 2), 2 / 3 * b.Y + 1 / 3 * ((a.Y + b.Y) / 2),
    2 / 3 * b.X + 1 / 3 * ((b.X + c.X) / 2), 2 / 3 * b.Y + 1 / 3 * ((b.Y + c.Y) / 2),
    (b.X + c.X) / 2, (b.Y + c.Y) / 2,
    ?_, ?_, rfl, rfl, ?_, ?_, rfl, rfl, ?_, ?_, ?_, ?_, ?_, ?_, ?_, ?_, ?_⟩
  · simp [BitSurface.LineTo, BitSurface.MoveTo, BitSurface.issue, replay_calls]
  · rw [show j + 1 + 1 = (j + 1) + 1 by rfl, List.getElem?_cons_succ, List.getElem?_cons_succ,
      List.getElem?_append_left (by omega)]
    exact hc
  · rw [show j + 1 + 2 = (j + 1 + 1) + 1 by rfl, List.getElem?_cons_succ,
      List.getElem?_cons_succ, List.getElem?_append_left hjlen]
    exact hd
  · ring
  · ring
  · ring
  · ring
  · have htake : (Call.MoveTo p0.X p0.Y :: Call.LineTo ((p0.X + p1.X) / 2) ((p0.Y + p1.Y) / 2) ::
        (curveCalls ((p0.X + p1.X) / 2, (p0.Y + p1.Y) / 2) ((pts.zip pts.tail).drop 1)
          ++ [Call.LineTo pl.X pl.Y])).take (j + 1 + 2)
        = (Call.MoveTo p0.X p0.Y :: Call.LineTo ((p0.X + p1.X) / 2) ((p0.Y + p1.Y) / 2) ::
          (curveCalls ((p0.X + p1.X) / 2, (p0.Y + p1.Y) / 2)
            ((pts.zip pts.tail).drop 1)).take j)
          ++ [Call.CurveTo c1x c1y (2 / 3 * a.X + 1 / 3 * ((a.X + b.X) / 2))
            (2 / 3 * a.Y + 1 / 3 * ((a.Y + b.Y) / 2)) ((a.X + b.X) / 2) ((a.Y + b.Y) / 2)] := by
      rw [show j + 1 + 2 = (j + 1) + 1 + 1 by rfl, List.take_succ_cons, List.take_succ_cons,
        List.take_append_of_le_length (by omega), List.take_succ, hc]
      simp
    rw [htake]
    exact replay_curveTo_current _ _ _ _ _ _ _ _
  · ring
  · ring
  · ring
  · ring
  · ring
  · ring

theorem MultiCurve_C1_continuity_witness :
    4 ≤ [NewPoint (0 : ℚ) 0, NewPoint 10 0, NewPoint 10 10, NewPoint 0 10].length ∧
    1 ≤ 1 ∧
    1 ≤ [NewPoint (0 : ℚ) 0, NewPoint 10 0, NewPoint 10 10, NewPoint 0 10].length - 3 ∧
    ∃ (s' : BitSurface ℚ) (tr : List (Call ℚ))
        (c1x c1y c2x c2y ex ey d1x d1y d2x d2y fx fy : ℚ),
      MultiCurve (BitSurface.mk [] (0, 0) [] [])
        [NewPoint (0 : ℚ) 0, NewPoint 10 0, NewPoint 10 10, NewPoint 0 10] = .ok s' ∧
      s'.calls = tr ∧
      tr[2]? = some (Call.CurveTo c1x c1y c2x c2y ex ey) ∧
      tr[3]? = some (Call.CurveTo d1x d1y d2x d2y fx fy) ∧
      3 * (ex - c2x) = 3 * (d1x - ex) ∧ 3 * (ey - c2y) = 3 * (d1y - ey) := by
  refine ⟨by decide, by decide, by decide, ?_⟩
  obtain ⟨s', tr, a, b, c, hrun, hcalls, -, -, -, c1x, c1y, c2x, c2y, ex, ey, d1x, d1y, d2x, d2y,
      fx, fy, h1, h2, -, -, -, -, -, -, -, -, -, -, -, hx1, hx2, hy1, hy2⟩ :=
    MultiCurve_C1_continuity (BitSurface.mk [] ((0 : ℚ), (0 : ℚ)) [] [])
      [NewPoint (0 : ℚ) 0, NewPoint 10 0, NewPoint 10 10, NewPoint 0 10] 1
      (by decide) (by decide) (by decide)
  exact ⟨s', tr, c1x, c1y, c2x, c2y, ex, ey, d1x, d1y, d2x, d2y, fx, fy, hrun,
    by simpa using hcalls, h1, h2, by rw [hx1, hx2], by rw [hy1, hy2]⟩

end

end bitlibgo

namespace bitlibgo

open geom

section Frame

variable {α : Type} [LinearOrderedField α]

theorem foldl_frame {β γ : Type} (f : BitSurface β → γ → BitSurface β)
    (hf : ∀ s a, (f s a).transform = s.transform ∧ (f s a).saved = s.saved) (l : List γ) :
    ∀ s, (l.foldl f s).transform = s.transform ∧ (l.foldl f s).saved = s.saved := by
  induction l with
  | nil => intro s; exact ⟨rfl, rfl⟩
  | cons a l ih =>
    intro s
    rw [List.foldl_cons]
    exact ⟨(ih _).1.trans (hf s a).1, (ih _).2.trans (hf s a).2⟩

theorem foldl_saved {β γ : Type} (f : BitSurface β → γ → BitSurface β) (l : List γ)
    (s : BitSurface β)
    (hf : ∀ s a, (f s a).transform = s.transform ∧ (f s a).saved = s.saved) :
    (l.foldl f s).saved = s.saved :=
  (foldl_frame f hf l s).2

theorem foldlM_frame {β γ : Type} (f : BitSurface β → γ → Except (BitSurface β) (BitSurface β))
    (hf : ∀ s a s', f s a = .ok s' → s'.transform = s.transform ∧ s'.saved = s.saved)
    (l : List γ) :
    ∀ s s', l.foldlM f s = .ok s' → s'.transform = s.transform ∧ s'.saved = s.saved := by
  induction l with
  | nil =>
    intro s s' h
    simp only [List.foldlM_nil, pure, Except.pure, Except.ok.injEq] at h
    subst h
    exact ⟨rfl, rfl⟩
  | cons a l ih =>
    intro s s' h
    rw [List.foldlM_cons] at h
    cases hfa : f s a with
    | error e => rw [hfa] at h; simp [bind, Except.bind] at h
    | ok t =>
      rw [hfa] at h
      have h1 := hf s a t hfa
      have h2 := ih t s' h
      exact ⟨h2.1.trans h1.1, h2.2.trans h1.2⟩

theorem QuadraticCurveTo_frame (s : BitSurface α) (x0 y0 x1 y1 : α) :
    (QuadraticCurveTo s x0 y0 x1 y1).transform = s.transform ∧
    (QuadraticCurveTo s x0 y0 x1 y1).saved = s.saved := ⟨rfl, rfl⟩

theorem curveToMidpoint_frame (pts : List (Point α)) (s : BitSurface α) (i : Nat)
    (s' : BitSurface α) (h : curveToMidpoint pts s i = .ok s') :
    s'.transform = s.transform ∧ s'.saved = s.saved := by
  unfold curveToMidpoint at h
  split at h
  · simp only [Except.ok.injEq] at h
    subst h
    exact ⟨rfl, rfl⟩
  · simp at h

theorem Path_frame {β : Type} (s : BitSurface β) (points : List (Point β)) :
    (Path s points).transform = s.transform ∧ (Path s points).saved = s.saved := by
  unfold Path
  refine foldl_frame _ ?_ points s
  intro _ _
  exact ⟨rfl, rfl⟩

theorem MultiCurve_frame (s : BitSurface α) (pts : List (Point α)) (s' : BitSurface α)
    (h : MultiCurve s pts = .ok s') : s'.transform = s.transform ∧ s'.saved = s.saved := by
  unfold MultiCurve at h
  split at h
  · simp at h
  · split at h
    · simp at h
    · simp only [bind, Except.bind] at h
      split at h
      · simp at h
      · rename_i t ht
        have h1 := foldlM_frame _ (curveToMidpoint_frame pts) _ _ t ht
        split at h
        · simp at h
        · simp only [pure, Except.pure, Except.ok.injEq] at h
          subst h
          exact h1

theorem MultiLoop_frame (s : BitSurface α) (pts : List (Point α)) (s' : BitSurface α)
    (h : MultiLoop s pts = .ok s') : s'.transform = s.transform ∧ s'.saved = s.saved := by
  unfold MultiLoop at h
  split at h
  · simp only [bind, Except.bind] at h
    split at h
    · simp at h
    · rename_i t ht
      have h1 := foldlM_frame _ (curveToMidpoint_frame pts) _ _ t ht
      simp only [pure, Except.pure, Except.ok.injEq] at h
      subst h
      exact h1
  · simp at h

theorem Splat_frame (M : GoMath α) (rand : Nat → α) (s : BitSurface α) (x y : α)
    (numNodes : Int) (radius innerRadius variation : α) (s' : BitSurface α)
    (h : Splat M rand s x y numNodes radius innerRadius variation = .ok s') :
    s'.transform = s.transform ∧ s'.saved = s.saved := by
  unfold Splat at h
  simp only [bind, Except.bind] at h
  split at h
  · simp at h
  · rename_i t ht
    have h1 := MultiLoop_frame _ _ t ht
    simp only [pure, Except.pure, Except.ok.injEq] at h
    subst h
    have hs : t.saved = s.transform :: s.saved := h1.2
    simp [BitSurface.Restore, BitSurface.issue, hs]

theorem gridColumns_frame (x y w h xres : α) (fuel : Nat) :
    ∀ (s : BitSurface α) (xx : α) (s' : BitSurface α),
      gridColumns x y w h xres fuel s xx = some s' →
      s'.transform = s.transform ∧ s'.saved = s.saved := by
  induction fuel with
  | zero => intro s xx s' hs; simp [gridColumns] at hs
  | succ fuel ih =>
    intro s xx s' hs
    unfold gridColumns at hs
    split at hs
    · exact ih ((s.MoveTo xx y).LineTo xx (y + h)) _ _ hs
    · simp only [Option.some.injEq] at hs
      subst hs
      exact ⟨rfl, rfl⟩

theorem gridRows_frame (x y w h yres : α) (fuel : Nat) :
    ∀ (s : BitSurface α) (yy : α) (s' : BitSurface α),
      gridRows x y w h yres fuel s yy = some s' →
      s'.transform = s.transform ∧ s'.saved = s.saved := by
  induction fuel with
  | zero => intro s yy s' hs; simp [gridRows] at hs
  | succ fuel ih =>
    intro s yy s' hs
    unfold gridRows at hs
    split at hs
    · exact ih ((s.MoveTo x yy).LineTo (x + w) yy) _ _ hs
    · simp only [Option.some.injEq] at hs
      subst hs
      exact ⟨rfl, rfl⟩

theorem Grid_frame (fuel : Nat) (s : BitSurface α) (x y w h xres yres : α) (s' : BitSurface α)
    (hs : Grid fuel s x y w h xres yres = some s') :
    s'.transform = s.transform ∧ s'.saved = s.saved := by
  unfold Grid at hs
  cases ht : gridColumns x y w h xres fuel s x with
  | none => simp [ht] at hs
  | some t =>
    cases hu : gridRows x y w h yres fuel t y with
    | none => simp [ht, hu] at hs
    | some u =>
      have h1 := gridColumns_frame x y w h xres fuel _ _ t ht
      have h2 := gridRows_frame x y w h yres fuel _ _ u hu
      simp only [ht, hu, Option.bind_eq_bind, Option.some_bind, pure, Option.some.injEq] at hs
      subst hs
      exact ⟨h2.1.trans h1.1, h2.2.trans h1.2⟩

theorem restore_frame {β : Type} (s t : BitSurface β) (h : t.saved = s.transform :: s.saved) :
    t.Restore.transform = s.transform ∧ t.Restore.saved = s.saved := by
  simp [BitSurface.Restore, BitSurface.issue, h]

theorem Polygon_frame (M : GoMath α) (s : BitSurface α) (x y r : α) (sides : Int)
    (rotation : α) :
    (Polygon M s x y r sides rotation).transform = s.transform ∧
    (Polygon M s x y r sides rotation).saved = s.saved := by
  unfold Polygon
  apply restore_frame
  show (List.foldl _ _ _ : BitSurface α).saved = _
  rw [foldl_saved]
  · rfl
  · intro _ _
    exact ⟨rfl, rfl⟩

theorem Star_frame (M : GoMath α) (s : BitSurface α) (x y r0 r1 : α) (points : Int)
    (rotation : α) :
    (Star M s x y r0 r1 points rotation).transform = s.transform ∧
    (Star M s x y r0 r1 points rotation).saved = s.saved := by
  unfold Star
  apply restore_frame
  show (List.foldl _ _ _ : BitSurface α).saved = _
  rw [foldl_saved]
  · rfl
  · intro _ _
    exact ⟨rfl, rfl⟩

theorem Points_frame (M : GoMath α) (s : BitSurface α) (points : List (Point α)) (radius : α) :
    (Points M s points radius).transform = s.transform ∧
    (Points M s points radius).saved = s.saved := by
  unfold Points
  refine foldl_frame _ ?_ points s
  intro _ _
  exact ⟨rfl, rfl⟩

/-- A method that runs a fallible method `m` and then one paint call. -/
theorem paint_frame {β : Type} (s s' : BitSurface β)
    (m : Except (BitSurface β) (BitSurface β)) (g : BitSurface β → BitSurface β)
    (hm : ∀ t, m = .ok t → t.transform = s.transform ∧ t.saved = s.saved)
    (hg : ∀ t, (g t).transform = t.transform ∧ (g t).saved = t.saved)
    (h : (m >>= fun t => pure (g t)) = .ok s') :
    s'.transform = s.transform ∧ s'.saved = s.saved := by
  cases m with
  | error e => simp [bind, Except.bind] at h
  | ok t =>
    simp only [bind, Except.bind, pure, Except.pure, Except.ok.injEq] at h
    subst h
    exact ⟨(hg t).1.trans (hm t rfl).1, (hg t).2.trans (hm t rfl).2⟩

end Frame

section FrameFloor

variable {α : Type} [LinearOrderedField α] [FloorRing α]

theorem Heart_frame (M : GoMath α) (s : BitSurface α) (x y w h r : α) :
    (Heart M s x y w h r).transform = s.transform ∧
    (Heart M s x y w h r).saved = s.saved := by
  unfold Heart
  apply restore_frame
  show (Path _ _).saved = _
  rw [(Path_frame _ _).2]
  rfl

/-- C10: every method of `drawing.go`, plain or `Stroke`/`Fill` variant, on every
input on which it returns, leaves the surface with the current transform and the
stack of saved transforms (so also its depth) it had at entry. -/
theorem shape_preserves_transform (M : GoMath α) (rand : Nat → α) (fuel : Nat)
    (shape : Shape α) (s s' : BitSurface α)
    (h : shape.draw M rand fuel s = some (.ok s')) :
    s'.transform = s.transform ∧ s'.saved.length = s.saved.length ∧ s'.saved = s.saved := by
  have key : s'.transform = s.transform ∧ s'.saved = s.saved := by
    cases shape <;> simp only [Shape.draw, Option.some.injEq, Except.ok.injEq] at h
    case Line => subst h; exact ⟨rfl, rfl⟩
    case LineThrough => subst h; exact ⟨rfl, rfl⟩
    case Ray => subst h; exact ⟨rfl, rfl⟩
    case FillRectangle => subst h; exact ⟨rfl, rfl⟩
    case StrokeRectangle => subst h; exact ⟨rfl, rfl⟩
    case RoundRectangle => subst h; exact ⟨rfl, rfl⟩
    case StrokeRoundRectangle => subst h; exact ⟨rfl, rfl⟩
    case FillRoundRectangle => subst h; exact ⟨rfl, rfl⟩
    case Circle => subst h; exact ⟨rfl, rfl⟩
    case FillCircle => subst h; exact ⟨rfl, rfl⟩
    case StrokeCircle => subst h; exact ⟨rfl, rfl⟩
    case Ellipse => subst h; exact ⟨rfl, rfl⟩
    case FillEllipse => subst h; exact ⟨rfl, rfl⟩
    case StrokeEllipse => subst h; exact ⟨rfl, rfl⟩
    case Path => subst h; exact Path_frame _ _
    case FillPath => subst h; exact Path_frame _ _
    case StrokePath points close => subst h; cases close <;> exact Path_frame _ _
    case Polygon => subst h; exact Polygon_frame _ _ _ _ _ _ _
    case StrokePolygon => subst h; exact Polygon_frame _ _ _ _ _ _ _
    case FillPolygon => subst h; exact Polygon_frame _ _ _ _ _ _ _
    case Star => subst h; exact Star_frame _ _ _ _ _ _ _ _
    case StrokeStar => subst h; exact Star_frame _ _ _ _ _ _ _ _
    case FillStar => subst h; exact Star_frame _ _ _ _ _ _ _ _
    case Splat => exact Splat_frame _ _ _ _ _ _ _ _ _ _ h
    case StrokeSplat =>
      exact paint_frame _ _ _ BitSurface.Stroke (Splat_frame _ _ _ _ _ _ _ _ _)
        (fun _ => ⟨rfl, rfl⟩) h
    case FillSplat =>
      exact paint_frame _ _ _ BitSurface.Fill (Splat_frame _ _ _ _ _ _ _ _ _)
        (fun _ => ⟨rfl, rfl⟩) h
    case FractalLine => subst h; exact Path_frame _ _
    case strokeFractalLine => subst h; exact Path_frame _ _
    case Heart => subst h; exact Heart_frame _ _ _ _ _ _ _
    case FillHeart => subst h; exact Heart_frame _ _ _ _ _ _ _
    case StrokeHeart => subst h; exact Heart_frame _ _ _ _ _ _ _
    case Points => subst h; exact Points_frame _ _ _ _
    case StrokeCurveTo => subst h; exact ⟨rfl, rfl⟩
    case QuadraticCurveTo => subst h; exact ⟨rfl, rfl⟩
    case StrokeQuadraticCurveTo => subst h; exact ⟨rfl, rfl⟩
    case MultiCurve => exact MultiCurve_frame _ _ _ h
    case StrokeMultiCurve =>
      exact paint_frame _ _ _ BitSurface.Stroke (MultiCurve_frame _ _) (fun _ => ⟨rfl, rfl⟩) h
    case MultiLoop => exact MultiLoop_frame _ _ _ h
    case FillMultiLoop =>
      exact paint_frame _ _ _ BitSurface.Fill (MultiLoop_frame _ _) (fun _ => ⟨rfl, rfl⟩) h
    case StrokeMultiLoop =>
      exact paint_frame _ _ _ BitSurface.Stroke (MultiLoop_frame _ _) (fun _ => ⟨rfl, rfl⟩) h
    case Grid =>
      simp only [Option.map_eq_some', Except.ok.injEq, exists_eq_right] at h
      exact Grid_frame _ _ _ _ _ _ _ _ _ h
  exact ⟨key.1, by rw [key.2], key.2⟩

theorem shape_preserves_transform_witness :
    (Shape.Polygon (1 : ℝ) 2 3 5 4).draw
      (GoMath.mk Real.pi Real.sqrt Real.cos Real.sin (fun y x => Complex.arg ⟨x, y⟩)
        (fun p q => Real.sqrt (p * p + q * q)) (fun b e => b ^ e))
      (fun _ => 1 / 2) 0 (BitSurface.mk [] (0, 0) [TransformOp.Scale 2 2] [[]])
      = some (.ok (Polygon
        (GoMath.mk Real.pi Real.sqrt Real.cos Real.sin (fun y x => Complex.arg ⟨x, y⟩)
          (fun p q => Real.sqrt (p * p + q * q)) (fun b e => b ^ e))
        (BitSurface.mk [] (0, 0) [TransformOp.Scale 2 2] [[]]) 1 2 3 5 4)) ∧
    (Polygon
      (GoMath.mk Real.pi Real.sqrt Real.cos Real.sin (fun y x => Complex.arg ⟨x, y⟩)
        (fun p q => Real.sqrt (p * p + q * q)) (fun b e => b ^ e))
      (BitSurface.mk [] (0, 0) [TransformOp.Scale 2 2] [[]]) 1 2 3 5 4).transform
      = [TransformOp.Scale 2 2] ∧
    (Polygon
      (GoMath.mk Real.pi Real.sqrt Real.cos Real.sin (fun y x => Complex.arg ⟨x, y⟩)
        (fun p q => Real.sqrt (p * p + q * q)) (fun b e => b ^ e))
      (BitSurface.mk [] (0, 0) [TransformOp.Scale 2 2] [[]]) 1 2 3 5 4).saved.length = 1 :=
  ⟨rfl,
    (shape_preserves_transform _ (fun _ => 1 / 2) 0 (Shape.Polygon (1 : ℝ) 2 3 5 4)
      (BitSurface.mk [] (0, 0) [TransformOp.Scale 2 2] [[]]) _ rfl).1,
    (shape_preserves_transform _ (fun _ => 1 / 2) 0 (Shape.Polygon (1 : ℝ) 2 3 5 4)
      (BitSurface.mk [] (0, 0) [TransformOp.Scale 2 2] [[]]) _ rfl).2.1⟩

end FrameFloor

end bitlibgo

namespace bitlibgo

open geom

section

variable {α : Type} [LinearOrderedField α]

/-- C16 on the code: `MultiLoop` returns normally on a one-point list. -/
theorem MultiLoop_one_point_returns :
    MultiLoop (BitSurface.mk [] (0, 0) [] []) [NewPoint (1 : ℚ) 2] =
      Except.ok (BitSurface.mk [Call.MoveTo 1 2, Call.CurveTo 1 2 1 2 1 2] (1, 2) [] []) := by
  simp [MultiLoop, QuadraticCurveTo, BitSurface.CurveTo, BitSurface.MoveTo, BitSurface.issue,
    BitSurface.GetCurrentPoint, NewPoint, pure, Except.pure, bind, Except.bind]
  norm_num

/-- C16, amended: on the empty list `MultiCurve` and `MultiLoop` both panic before any
call is issued; on a one-point list `MultiCurve` panics after its `MoveTo`, and
`MultiLoop` returns normally, having issued `MoveTo` to the point and one `CurveTo`
whose control points and end are that point. -/
theorem short_point_lists (s : BitSurface α) (p : Point α) :
    MultiCurve s [] = .error s ∧
    MultiLoop s [] = .error s ∧
    MultiCurve s [p] = .error (s.MoveTo p.X p.Y) ∧
    ∃ s' : BitSurface α, MultiLoop s [p] = .ok s' ∧
      s'.calls = s.calls ++ [Call.MoveTo p.X p.Y, Call.CurveTo p.X p.Y p.X p.Y p.X p.Y] := by
  refine ⟨rfl, rfl, rfl, _, rfl, ?_⟩
  have hx : (p.X + p.X) / 2 = p.X := by ring
  have hy : (p.Y + p.Y) / 2 = p.Y := by ring
  have hcx : 2 / 3 * p.X + 1 / 3 * p.X = p.X := by ring
  have hcy : 2 / 3 * p.Y + 1 / 3 * p.Y = p.Y := by ring
  simp only [QuadraticCurveTo, BitSurface.CurveTo, BitSurface.MoveTo, BitSurface.issue,
    BitSurface.GetCurrentPoint, List.length_singleton, List.getElem_cons_zero, hx, hy, hcx, hcy,
    List.append_assoc, List.singleton_append, Nat.sub_self]

end

end bitlibgo

namespace bitlibgo

open geom

section Balance

variable {α : Type} [LinearOrderedField α]

theorem saves_append {β : Type} (cs ds : List (Call β)) :
    saves (cs ++ ds) = saves cs + saves ds := by
  simp [saves, List.countP_append]

theorem restores_append {β : Type} (cs ds : List (Call β)) :
    restores (cs ++ ds) = restores cs + restores ds := by
  simp [restores, List.countP_append]

/-- The calls of `s'` extend those of `s` by calls among which there is neither a
`Save` nor a `Restore`. -/
theorem plain_refl {β : Type} (s : BitSurface β) :
    ∃ tr, s.calls = s.calls ++ tr ∧ saves tr = 0 ∧ restores tr = 0 :=
  ⟨[], by simp, rfl, rfl⟩

theorem plain_trans {β : Type} (s t u : BitSurface β)
    (h1 : ∃ tr, t.calls = s.calls ++ tr ∧ saves tr = 0 ∧ restores tr = 0)
    (h2 : ∃ tr, u.calls = t.calls ++ tr ∧ saves tr = 0 ∧ restores tr = 0) :
    ∃ tr, u.calls = s.calls ++ tr ∧ saves tr = 0 ∧ restores tr = 0 := by
  obtain ⟨a, ha, ha1, ha2⟩ := h1
  obtain ⟨b, hb, hb1, hb2⟩ := h2
  exact ⟨a ++ b, by rw [hb, ha, List.append_assoc], by rw [saves_append, ha1, hb1],
    by rw [restores_append, ha2, hb2]⟩

theorem plain_issue {β : Type} (s : BitSurface β) (c : Call β)
    (h1 : saves [c] = 0) (h2 : restores [c] = 0) :
    ∃ tr, (s.issue c).calls = s.calls ++ tr ∧ saves tr = 0 ∧ restores tr = 0 := by
  refine ⟨[c], ?_, h1, h2⟩
  cases c <;> simp [BitSurface.issue]
  split <;> simp

theorem plain_foldl {β γ : Type} (f : BitSurface β → γ → BitSurface β)
    (hf : ∀ s a, ∃ tr, (f s a).calls = s.calls ++ tr ∧ saves tr = 0 ∧ restores tr = 0)
    (l : List γ) :
    ∀ s, ∃ tr, (l.foldl f s).calls = s.calls ++ tr ∧ saves tr = 0 ∧ restores tr = 0 := by
  induction l with
  | nil => intro s; exact plain_refl s
  | cons a l ih =>
    intro s
    rw [List.foldl_cons]
    exact plain_trans _ _ _ (hf s a) (ih _)

theorem plain_foldlM {β γ : Type}
    (f : BitSurface β → γ → Except (BitSurface β) (BitSurface β))
    (hf : ∀ s a s', f s a = .ok s' →
      ∃ tr, s'.calls = s.calls ++ tr ∧ saves tr = 0 ∧ restores tr = 0)
    (l : List γ) :
    ∀ s s', l.foldlM f s = .ok s' →
      ∃ tr, s'.calls = s.calls ++ tr ∧ saves tr = 0 ∧ restores tr = 0 := by
  induction l with
  | nil =>
    intro s s' h
    simp only [List.foldlM_nil, pure, Except.pure, Except.ok.injEq] at h
    subst h
    exact plain_refl s
  | cons a l ih =>
    intro s s' h
    rw [List.foldlM_cons] at h
    cases hfa : f s a with
    | error e => rw [hfa] at h; simp [bind, Except.bind] at h
    | ok t =>
      rw [hfa] at h
      exact plain_trans _ _ _ (hf s a t hfa) (ih t s' h)

theorem plain_MoveTo {β : Type} (s : BitSurface β) (x y : β) :
    ∃ tr, (s.MoveTo x y).calls = s.calls ++ tr ∧ saves tr = 0 ∧ restores tr = 0 :=
  plain_issue s _ rfl rfl

theorem plain_LineTo {β : Type} (s : BitSurface β) (x y : β) :
    ∃ tr, (s.LineTo x y).calls = s.calls ++ tr ∧ saves tr = 0 ∧ restores tr = 0 :=
  plain_issue s _ rfl rfl

theorem plain_paint {β : Type} (s : BitSurface β) :
    (∃ tr, s.Stroke.calls = s.calls ++ tr ∧ saves tr = 0 ∧ restores tr = 0) ∧
    (∃ tr, s.Fill.calls = s.calls ++ tr ∧ saves tr = 0 ∧ restores tr = 0) ∧
    (∃ tr, s.ClosePath.calls = s.calls ++ tr ∧ saves tr = 0 ∧ restores tr = 0) :=
  ⟨plain_issue s _ rfl rfl, plain_issue s _ rfl rfl, plain_issue s _ rfl rfl⟩

theorem plain_QuadraticCurveTo (s : BitSurface α) (x0 y0 x1 y1 : α) :
    ∃ tr, (QuadraticCurveTo s x0 y0 x1 y1).calls = s.calls ++ tr ∧
      saves tr = 0 ∧ restores tr = 0 :=
  plain_issue s _ rfl rfl

theorem plain_curveToMidpoint (pts : List (Point α)) (s : BitSurface α) (i : Nat)
    (s' : BitSurface α) (h : curveToMidpoint pts s i = .ok s') :
    ∃ tr, s'.calls = s.calls ++ tr ∧ saves tr = 0 ∧ restores tr = 0 := by
  unfold curveToMidpoint at h
  split at h
  · simp only [Except.ok.injEq] at h
    subst h
    exact plain_QuadraticCurveTo _ _ _ _ _
  · simp at h

theorem plain_Path {β : Type} (s : BitSurface β) (points : List (Point β)) :
    ∃ tr, (Path s points).calls = s.calls ++ tr ∧ saves tr = 0 ∧ restores tr = 0 := by
  unfold Path
  refine plain_foldl _ ?_ points s
  intro s p
  exact plain_LineTo s _ _

theorem plain_MultiCurve (s : BitSurface α) (pts : List (Point α)) (s' : BitSurface α)
    (h : MultiCurve s pts = .ok s') :
    ∃ tr, s'.calls = s.calls ++ tr ∧ saves tr = 0 ∧ restores tr = 0 := by
  unfold MultiCurve at h
  split at h
  · simp at h
  · split at h
    · simp at h
    · simp only [bind, Except.bind] at h
      split at h
      · simp at h
      · rename_i t ht
        have h1 := plain_foldlM _ (plain_curveToMidpoint pts) _ _ t ht
        split at h
        · simp at h
        · simp only [pure, Except.pure, Except.ok.injEq] at h
          subst h
          exact plain_trans _ _ _
            (plain_trans _ _ _ (plain_trans _ _ _ (plain_MoveTo _ _ _) (plain_LineTo _ _ _)) h1)
            (plain_LineTo _ _ _)

theorem plain_MultiLoop (s : BitSurface α) (pts : List (Point α)) (s' : BitSurface α)
    (h : MultiLoop s pts = .ok s') :
    ∃ tr, s'.calls = s.calls ++ tr ∧ saves tr = 0 ∧ restores tr = 0 := by
  unfold MultiLoop at h
  split at h
  · simp only [bind, Except.bind] at h
    split at h
    · simp at h
    · rename_i t ht
      have h1 := plain_foldlM _ (plain_curveToMidpoint pts) _ _ t ht
      simp only [pure, Except.pure, Except.ok.injEq] at h
      subst h
      exact plain_trans _ _ _ (plain_trans _ _ _ (plain_MoveTo _ _ _) h1)
        (plain_QuadraticCurveTo _ _ _ _ _)
  · simp at h

theorem plain_gridColumns (x y w h xres : α) (fuel : Nat) :
    ∀ (s : BitSurface α) (xx : α) (s' : BitSurface α),
      gridColumns x y w h xres fuel s xx = some s' →
      ∃ tr, s'.calls = s.calls ++ tr ∧ saves tr = 0 ∧ restores tr = 0 := by
  induction fuel with
  | zero => intro s xx s' hs; simp [gridColumns] at hs
  | succ fuel ih =>
    intro s xx s' hs
    unfold gridColumns at hs
    split at hs
    · exact plain_trans _ _ _ (plain_trans _ _ _ (plain_MoveTo _ _ _) (plain_LineTo _ _ _))
        (ih ((s.MoveTo xx y).LineTo xx (y + h)) _ _ hs)
    · simp only [Option.some.injEq] at hs
      subst hs
      exact plain_refl _

theorem plain_gridRows (x y w h yres : α) (fuel : Nat) :
    ∀ (s : BitSurface α) (yy : α) (s' : BitSurface α),
      gridRows x y w h yres fuel s yy = some s' →
      ∃ tr, s'.calls = s.calls ++ tr ∧ saves tr = 0 ∧ restores tr = 0 := by
  induction fuel with
  | zero => intro s yy s' hs; simp [gridRows] at hs
  | succ fuel ih =>
    intro s yy s' hs
    unfold gridRows at hs
    split at hs
    · exact plain_trans _ _ _ (plain_trans _ _ _ (plain_MoveTo _ _ _) (plain_LineTo _ _ _))
        (ih ((s.MoveTo x yy).LineTo (x + w) yy) _ _ hs)
    · simp only [Option.some.injEq] at hs
      subst hs
      exact plain_refl _

theorem plain_Grid (fuel : Nat) (s : BitSurface α) (x y w h xres yres : α) (s' : BitSurface α)
    (hs : Grid fuel s x y w h xres yres = some s') :
    ∃ tr, s'.calls = s.calls ++ tr ∧ saves tr = 0 ∧ restores tr = 0 := by
  unfold Grid at hs
  cases ht : gridColumns x y w h xres fuel s x with
  | none => simp [ht] at hs
  | some t =>
    cases hu : gridRows x y w h yres fuel t y with
    | none => simp [ht, hu] at hs
    | some u =>
      have h1 := plain_gridColumns x y w h xres fuel _ _ t ht
      have h2 := plain_gridRows x y w h yres fuel _ _ u hu
      simp only [ht, hu, Option.bind_eq_bind, Option.some_bind, pure, Option.some.injEq] at hs
      subst hs
      exact plain_trans _ _ _ (plain_trans _ _ _ h1 h2) (plain_paint _).1

/-- A block `Save; ...; Restore` whose inner calls hold neither `Save` nor `Restore`
adds one `Save` and one `Restore`. -/
theorem scoped_balanced {β : Type} (s t : BitSurface β)
    (h : ∃ tr, t.calls = s.Save.calls ++ tr ∧ saves tr = 0 ∧ restores tr = 0) :
    ∃ tr, t.Restore.calls = s.calls ++ tr ∧ saves tr = restores tr := by
  obtain ⟨tr, htr, h1, h2⟩ := h
  refine ⟨Call.Save :: tr ++ [Call.Restore], ?_, ?_⟩
  · have hr : t.Restore.calls = t.calls ++ [Call.Restore] := by
      simp only [BitSurface.Restore, BitSurface.issue]
      split <;> rfl
    rw [hr, htr]
    simp [BitSurface.Save, BitSurface.issue]
  · have e : Call.Save :: tr ++ [Call.Restore] = [Call.Save] ++ tr ++ [Call.Restore] := rfl
    rw [e, saves_append, saves_append, restores_append, restores_append, h1, h2]
    rfl

theorem balanced_of_plain {β : Type} (s t : BitSurface β)
    (h : ∃ tr, t.calls = s.calls ++ tr ∧ saves tr = 0 ∧ restores tr = 0) :
    ∃ tr, t.calls = s.calls ++ tr ∧ saves tr = restores tr := by
  obtain ⟨tr, htr, h1, h2⟩ := h
  exact ⟨tr, htr, by rw [h1, h2]⟩

theorem balanced_then_plain {β : Type} (s t u : BitSurface β)
    (h1 : ∃ tr, t.calls = s.calls ++ tr ∧ saves tr = restores tr)
    (h2 : ∃ tr, u.calls = t.calls ++ tr ∧ saves tr = 0 ∧ restores tr = 0) :
    ∃ tr, u.calls = s.calls ++ tr ∧ saves tr = restores tr := by
  obtain ⟨a, ha, hab⟩ := h1
  obtain ⟨b, hb, hb1, hb2⟩ := h2
  exact ⟨a ++ b, by rw [hb, ha, List.append_assoc],
    by rw [saves_append, restores_append, hab, hb1, hb2]⟩

end Balance

end bitlibgo

namespace bitlibgo

open geom

section Balance2

variable {α : Type} [LinearOrderedField α]

theorem plain_transform {β : Type} (s : BitSurface β) (tx ty : β) :
    (∃ tr, (s.Translate tx ty).calls = s.calls ++ tr ∧ saves tr = 0 ∧ restores tr = 0) ∧
    (∃ tr, (s.Rotate tx).calls = s.calls ++ tr ∧ saves tr = 0 ∧ restores tr = 0) ∧
    (∃ tr, (s.Scale tx ty).calls = s.calls ++ tr ∧ saves tr = 0 ∧ restores tr = 0) :=
  ⟨plain_issue s _ rfl rfl, plain_issue s _ rfl rfl, plain_issue s _ rfl rfl⟩

/-- A method made of a fixed list of backend calls with as many `Save` as `Restore`. -/
theorem balanced_replay {β : Type} (s : BitSurface β) (cs : List (Call β))
    (h : saves cs = restores cs) :
    ∃ tr, (s.replay cs).calls = s.calls ++ tr ∧ saves tr = restores tr :=
  ⟨cs, replay_calls s cs, h⟩

theorem balanced_Polygon (M : GoMath α) (s : BitSurface α) (x y r : α) (sides : Int)
    (rotation : α) :
    ∃ tr, (Polygon M s x y r sides rotation).calls = s.calls ++ tr ∧
      saves tr = restores tr := by
  unfold Polygon
  apply scoped_balanced
  refine plain_trans _ _ _ (plain_trans _ _ _ (plain_trans _ _ _ (plain_trans _ _ _
    (plain_transform _ x y).1 (plain_transform _ rotation 0).2.1) (plain_MoveTo _ r 0))
    (plain_foldl _ ?_ _ _)) (plain_LineTo _ r 0)
  intro s i
  exact plain_LineTo _ _ _

theorem balanced_Star (M : GoMath α) (s : BitSurface α) (x y r0 r1 : α) (points : Int)
    (rotation : α) :
    ∃ tr, (Star M s x y r0 r1 points rotation).calls = s.calls ++ tr ∧
      saves tr = restores tr := by
  unfold Star
  apply scoped_balanced
  refine plain_trans _ _ _ (plain_trans _ _ _ (plain_trans _ _ _
    (plain_transform _ x y).1 (plain_transform _ rotation 0).2.1)
    (plain_foldl _ ?_ _ _)) (plain_paint _).2.2
  intro s i
  exact plain_LineTo _ _ _

theorem balanced_Points (M : GoMath α) (s : BitSurface α) (points : List (Point α))
    (radius : α) :
    ∃ tr, (Points M s points radius).calls = s.calls ++ tr ∧ saves tr = restores tr := by
  apply balanced_of_plain
  unfold Points
  refine plain_foldl _ ?_ points s
  intro s p
  exact plain_trans _ _ _ (plain_issue s (Call.Arc p.X p.Y radius 0 (bitmath.TwoPi M.Pi)) rfl rfl)
    (plain_paint _).2.1

theorem balanced_Splat (M : GoMath α) (rand : Nat → α) (s : BitSurface α) (x y : α)
    (numNodes : Int) (radius innerRadius variation : α) (s' : BitSurface α)
    (h : Splat M rand s x y numNodes radius innerRadius variation = .ok s') :
    ∃ tr, s'.calls = s.calls ++ tr ∧ saves tr = restores tr := by
  unfold Splat at h
  simp only [bind, Except.bind] at h
  split at h
  · simp at h
  · rename_i t ht
    have h1 := plain_MultiLoop _ _ t ht
    simp only [pure, Except.pure, Except.ok.injEq] at h
    subst h
    exact scoped_balanced s t (plain_trans _ _ _ (plain_transform _ x y).1 h1)

/-- A fallible method followed by one paint call. -/
theorem balanced_paint {β : Type} (s s' : BitSurface β)
    (m : Except (BitSurface β) (BitSurface β)) (g : BitSurface β → BitSurface β)
    (hm : ∀ t, m = .ok t → ∃ tr, t.calls = s.calls ++ tr ∧ saves tr = restores tr)
    (hg : ∀ t, ∃ tr, (g t).calls = t.calls ++ tr ∧ saves tr = 0 ∧ restores tr = 0)
    (h : (m >>= fun t => pure (g t)) = .ok s') :
    ∃ tr, s'.calls = s.calls ++ tr ∧ saves tr = restores tr := by
  cases m with
  | error e => simp [bind, Except.bind] at h
  | ok t =>
    simp only [bind, Except.bind, pure, Except.pure, Except.ok.injEq] at h
    subst h
    exact balanced_then_plain _ _ _ (hm t rfl) (hg t)

end Balance2

section Balance3

variable {α : Type} [LinearOrderedField α] [FloorRing α]

theorem balanced_Heart (M : GoMath α) (s : BitSurface α) (x y w h r : α) :
    ∃ tr, (Heart M s x y w h r).calls = s.calls ++ tr ∧ saves tr = restores tr := by
  unfold Heart
  apply scoped_balanced
  exact plain_trans _ _ _ (plain_trans _ _ _
    (plain_transform _ x y).1 (plain_transform _ r 0).2.1) (plain_Path _ _)

/-- C11 on the code: `Splat` with `numNodes = 0` aborts in `MultiLoop` after `Save` and
`Translate`; the calls made up to the abort hold one `Save` and no `Restore`. -/
theorem Splat_abort_unbalanced :
    Splat (GoMath.mk Real.pi Real.sqrt Real.cos Real.sin (fun y x => Complex.arg ⟨x, y⟩)
        (fun p q => Real.sqrt (p * p + q * q)) (fun b e => b ^ e))
      (fun _ => 1 / 2) (BitSurface.mk [] (0, 0) [] []) 3 4 0 2 1 0
      = Except.error (BitSurface.mk [Call.Save, Call.Translate 3 4] (0, 0)
        [TransformOp.Translate 3 4] [[]]) ∧
    saves [Call.Save, Call.Translate (3 : ℝ) 4] = 1 ∧
    restores [Call.Save, Call.Translate (3 : ℝ) 4] = 0 := by
  refine ⟨?_, rfl, rfl⟩
  simp [Splat, splatPoints, MultiLoop, BitSurface.Save, BitSurface.Translate, BitSurface.issue,
    bind, Except.bind]

/-- C11, amended: for every method of `drawing.go` and every input on which it
returns, the calls it has made hold as many `Restore` as `Save`. -/
theorem returning_calls_balanced (M : GoMath α) (rand : Nat → α) (fuel : Nat)
    (shape : Shape α) (s s' : BitSurface α)
    (h : shape.draw M rand fuel s = some (.ok s')) :
    ∃ tr, s'.calls = s.calls ++ tr ∧ saves tr = restores tr := by
  cases shape <;> simp only [Shape.draw, Option.some.injEq, Except.ok.injEq] at h
  case Line x0 y0 x1 y1 =>
    subst h
    exact balanced_replay s [Call.MoveTo x0 y0, Call.LineTo x1 y1, Call.Stroke] rfl
  case LineThrough x0 y0 x1 y1 overlap =>
    subst h
    exact balanced_replay s [Call.Save, Call.Translate x0 y0,
      Call.Rotate (M.Atan2 (y1 - y0) (x1 - x0)), Call.MoveTo (-overlap) 0,
      Call.LineTo (M.Hypot (x0 - x1) (y0 - y1) + overlap) 0, Call.Stroke, Call.Restore] rfl
  case Ray x y angle offset length =>
    subst h
    exact balanced_replay s [Call.Save, Call.Translate x y, Call.Rotate angle,
      Call.MoveTo offset 0, Call.LineTo (offset + length) 0, Call.Stroke, Call.Restore] rfl
  case FillRectangle x y w h' =>
    subst h
    exact balanced_replay s [Call.Rectangle x y w h', Call.Fill] rfl
  case StrokeRectangle x y w h' =>
    subst h
    exact balanced_replay s [Call.Rectangle x y w h', Call.Stroke] rfl
  case RoundRectangle x y w h' r =>
    subst h
    exact balanced_replay s [Call.MoveTo (x + r) y, Call.LineTo (x + w - r) y,
      Call.Arc (x + w - r) (y + r) r (-bitmath.HalfPi M.Pi) 0, Call.LineTo (x + w) (y + h' - r),
      Call.Arc (x + w - r) (y + h' - r) r 0 (bitmath.HalfPi M.Pi), Call.LineTo (x + r) (y + h'),
      Call.Arc (x + r) (y + h' - r) r (bitmath.HalfPi M.Pi) M.Pi, Call.LineTo x (y + r),
      Call.Arc (x + r) (y + r) r M.Pi (-bitmath.HalfPi M.Pi)] rfl
  case StrokeRoundRectangle x y w h' r =>
    subst h
    exact balanced_replay s [Call.MoveTo (x + r) y, Call.LineTo (x + w - r) y,
      Call.Arc (x + w - r) (y + r) r (-bitmath.HalfPi M.Pi) 0, Call.LineTo (x + w) (y + h' - r),
      Call.Arc (x + w - r) (y + h' - r) r 0 (bitmath.HalfPi M.Pi), Call.LineTo (x + r) (y + h'),
      Call.Arc (x + r) (y + h' - r) r (bitmath.HalfPi M.Pi) M.Pi, Call.LineTo x (y + r),
      Call.Arc (x + r) (y + r) r M.Pi (-bitmath.HalfPi M.Pi),
      Call.Stroke] rfl
  case FillRoundRectangle x y w h' r =>
    subst h
    exact balanced_replay s [Call.MoveTo (x + r) y, Call.LineTo (x + w - r) y,
      Call.Arc (x + w - r) (y + r) r (-bitmath.HalfPi M.Pi) 0, Call.LineTo (x + w) (y + h' - r),
      Call.Arc (x + w - r) (y + h' - r) r 0 (bitmath.HalfPi M.Pi), Call.LineTo (x + r) (y + h'),
      Call.Arc (x + r) (y + h' - r) r (bitmath.HalfPi M.Pi) M.Pi, Call.LineTo x (y + r),
      Call.Arc (x + r) (y + r) r M.Pi (-bitmath.HalfPi M.Pi),
      Call.Fill] rfl
  case Circle x y r =>
    subst h
    exact balanced_replay s [Call.Arc x y r 0 (bitmath.TwoPi M.Pi)] rfl
  case FillCircle x y r =>
    subst h
    exact balanced_replay s [Call.Arc x y r 0 (bitmath.TwoPi M.Pi), Call.Fill] rfl
  case StrokeCircle x y r =>
    subst h
    exact balanced_replay s [Call.Arc x y r 0 (bitmath.TwoPi M.Pi), Call.Stroke] rfl
  case Ellipse x y xr yr =>
    subst h
    exact balanced_replay s [Call.Save, Call.Translate x y, Call.Scale xr yr,
      Call.Arc 0 0 1 0 (bitmath.TwoPi M.Pi), Call.Restore] rfl
  case FillEllipse x y xr yr =>
    subst h
    exact balanced_replay s [Call.Save, Call.Translate x y, Call.Scale xr yr,
      Call.Arc 0 0 1 0 (bitmath.TwoPi M.Pi), Call.Restore, Call.Fill] rfl
  case StrokeEllipse x y xr yr =>
    subst h
    exact balanced_replay s [Call.Save, Call.Translate x y, Call.Scale xr yr,
      Call.Arc 0 0 1 0 (bitmath.TwoPi M.Pi), Call.Restore, Call.Stroke] rfl
  case Path points =>
    subst h
    exact balanced_of_plain _ _ (plain_Path _ _)
  case FillPath points =>
    subst h
    exact balanced_of_plain _ _ (plain_trans _ _ _ (plain_Path _ _) (plain_paint _).2.1)
  case StrokePath points close =>
    subst h
    cases close
    · exact balanced_of_plain _ _ (plain_trans _ _ _ (plain_Path _ _) (plain_paint _).1)
    · exact balanced_of_plain _ _ (plain_trans _ _ _
        (plain_trans _ _ _ (plain_Path _ _) (plain_paint _).2.2) (plain_paint _).1)
  case Polygon x y r sides rotation =>
    subst h
    exact balanced_Polygon _ _ _ _ _ _ _
  case StrokePolygon x y r sides rotation =>
    subst h
    exact balanced_then_plain _ _ _ (balanced_Polygon _ _ _ _ _ _ _) (plain_paint _).1
  case FillPolygon x y r sides rotation =>
    subst h
    exact balanced_then_plain _ _ _ (balanced_Polygon _ _ _ _ _ _ _) (plain_paint _).2.1
  case Star x y r0 r1 points rotation =>
    subst h
    exact balanced_Star _ _ _ _ _ _ _ _
  case StrokeStar x y r0 r1 points rotation =>
    subst h
    exact balanced_then_plain _ _ _ (balanced_Star _ _ _ _ _ _ _ _) (plain_paint _).1
  case FillStar x y r0 r1 points rotation =>
    subst h
    exact balanced_then_plain _ _ _ (balanced_Star _ _ _ _ _ _ _ _) (plain_paint _).2.1
  case Splat => exact balanced_Splat _ _ _ _ _ _ _ _ _ _ h
  case StrokeSplat =>
    exact balanced_paint _ _ _ BitSurface.Stroke (balanced_Splat _ _ _ _ _ _ _ _ _)
      (fun t => (plain_paint t).1) h
  case FillSplat =>
    exact balanced_paint _ _ _ BitSurface.Fill (balanced_Splat _ _ _ _ _ _ _ _ _)
      (fun t => (plain_paint t).2.1) h
  case FractalLine =>
    subst h
    exact balanced_of_plain _ _ (plain_Path _ _)
  case strokeFractalLine =>
    subst h
    exact balanced_of_plain _ _ (plain_trans _ _ _ (plain_Path _ _) (plain_paint _).1)
  case Heart =>
    subst h
    exact balanced_Heart _ _ _ _ _ _ _
  case FillHeart =>
    subst h
    exact balanced_then_plain _ _ _ (balanced_Heart _ _ _ _ _ _ _) (plain_paint _).2.1
  case StrokeHeart =>
    subst h
    exact balanced_then_plain _ _ _ (balanced_Heart _ _ _ _ _ _ _) (plain_paint _).1
  case Points =>
    subst h
    exact balanced_Points _ _ _ _
  case StrokeCurveTo x0 y0 x1 y1 x2 y2 =>
    subst h
    exact balanced_replay s [Call.CurveTo x0 y0 x1 y1 x2 y2, Call.Stroke] rfl
  case QuadraticCurveTo =>
    subst h
    exact balanced_of_plain _ _ (plain_QuadraticCurveTo _ _ _ _ _)
  case StrokeQuadraticCurveTo =>
    subst h
    exact balanced_of_plain _ _ (plain_trans _ _ _ (plain_QuadraticCurveTo _ _ _ _ _)
      (plain_paint _).1)
  case MultiCurve => exact balanced_of_plain _ _ (plain_MultiCurve _ _ _ h)
  case StrokeMultiCurve =>
    exact balanced_paint _ _ _ BitSurface.Stroke
      (fun t ht => balanced_of_plain _ _ (plain_MultiCurve _ _ t ht))
      (fun t => (plain_paint t).1) h
  case MultiLoop => exact balanced_of_plain _ _ (plain_MultiLoop _ _ _ h)
  case FillMultiLoop =>
    exact balanced_paint _ _ _ BitSurface.Fill
      (fun t ht => balanced_of_plain _ _ (plain_MultiLoop _ _ t ht))
      (fun t => (plain_paint t).2.1) h
  case StrokeMultiLoop =>
    exact balanced_paint _ _ _ BitSurface.Stroke
      (fun t ht => balanced_of_plain _ _ (plain_MultiLoop _ _ t ht))
      (fun t => (plain_paint t).1) h
  case Grid =>
    simp only [Option.map_eq_some', Except.ok.injEq, exists_eq_right] at h
    exact balanced_of_plain _ _ (plain_Grid _ _ _ _ _ _ _ _ _ h)

end Balance3

end bitlibgo

namespace bitlibgo

open geom

theorem returning_calls_balanced_witness :
    (Shape.Ray (1 : ℝ) 2 3 4 5).draw
      (GoMath.mk Real.pi Real.sqrt Real.cos Real.sin (fun y x => Complex.arg ⟨x, y⟩)
        (fun p q => Real.sqrt (p * p + q * q)) (fun b e => b ^ e))
      (fun _ => 1 / 2) 0 (BitSurface.mk [Call.Save] (0, 0) [] [[]])
      = some (.ok (Ray (BitSurface.mk [Call.Save] (0, 0) [] [[]]) 1 2 3 4 5)) ∧
    ∃ tr, (Ray (BitSurface.mk [Call.Save] ((0 : ℝ), (0 : ℝ)) [] [[]]) 1 2 3 4 5).calls
        = [Call.Save] ++ tr ∧ saves tr = restores tr :=
  ⟨rfl, returning_calls_balanced
    (GoMath.mk Real.pi Real.sqrt Real.cos Real.sin (fun y x => Complex.arg ⟨x, y⟩)
      (fun p q => Real.sqrt (p * p + q * q)) (fun b e => b ^ e))
    (fun _ => 1 / 2) 0 (Shape.Ray (1 : ℝ) 2 3 4 5)
    (BitSurface.mk [Call.Save] (0, 0) [] [[]]) _ rfl⟩

theorem issue_calls {β : Type} (s : BitSurface β) (c : Call β) :
    (s.issue c).calls = s.calls ++ [c] := by
  cases c <;> simp [BitSurface.issue]
  split <;> simp

/-- A fallible method `m` followed by the paint call `c`: when `m` returns, so does
the variant, with the calls of `m` and then `c`; when `m` panics, the variant panics
on the same surface, `c` not issued. -/
theorem paint_after {β : Type} (m : Except (BitSurface β) (BitSurface β)) (c : Call β) :
    (∀ t, m = .ok t → (m >>= fun t => pure (t.issue c)) = .ok (t.issue c) ∧
      (t.issue c).calls = t.calls ++ [c]) ∧
    (∀ e, m = .error e → (m >>= fun t => pure (t.issue c)) = .error e) := by
  constructor
  · intro t ht
    subst ht
    exact ⟨rfl, issue_calls t c⟩
  · intro e he
    subst he
    rfl

section

variable {α : Type} [LinearOrderedField α] [FloorRing α]

/-- C12 on the code: `StrokePath` with `close = true` issues `ClosePath` between the
calls of `Path` and its `Stroke`; and on the empty list `StrokeMultiLoop` aborts as
`MultiLoop` does, no `Stroke` issued. -/
theorem StrokePath_close_differs :
    (StrokePath (BitSurface.mk [] (0, 0) [] []) [NewPoint (1 : ℚ) 2] true).calls
      = [Call.LineTo 1 2, Call.ClosePath, Call.Stroke] ∧
    (Path (BitSurface.mk [] (0, 0) [] []) [NewPoint (1 : ℚ) 2]).calls ++ [Call.Stroke]
      = [Call.LineTo 1 2, Call.Stroke] ∧
    (StrokePath (BitSurface.mk [] (0, 0) [] []) [NewPoint (1 : ℚ) 2] true).calls
      ≠ (Path (BitSurface.mk [] (0, 0) [] []) [NewPoint (1 : ℚ) 2]).calls ++ [Call.Stroke] ∧
    MultiLoop (BitSurface.mk [] ((0 : ℚ), (0 : ℚ)) [] []) []
      = Except.error (BitSurface.mk [] (0, 0) [] []) ∧
    StrokeMultiLoop (BitSurface.mk [] ((0 : ℚ), (0 : ℚ)) [] []) []
      = Except.error (BitSurface.mk [] (0, 0) [] []) := by
  refine ⟨rfl, rfl, ?_, rfl, rfl⟩
  simp [StrokePath, Path, BitSurface.LineTo, BitSurface.ClosePath, BitSurface.Stroke,
    BitSurface.issue]

/-- C12, amended: for every shape `X` with a `Stroke` or `Fill` variant, on all
arguments on which `X` returns, the calls of `StrokeX` are those of `X` followed by
one `Stroke`, and the calls of `FillX` those of `X` followed by one `Fill`; when `X`
panics (`Splat`, `MultiCurve`, `MultiLoop`) the variant panics on the same surface
and issues no paint call; `StrokePath points close` is `Path points` followed by
`Stroke` when `close` is false and by `ClosePath`, `Stroke` when it is true. -/
theorem paint_variant_calls (M : GoMath α) (rand : Nat → α) (s : BitSurface α)
    (x y w h r xr yr r0 r1 rotation radius innerRadius variation x0 y0 x1 y1 x2 y2 roughness : α)
    (sides points numNodes iterations : Int) (pts : List (Point α)) :
    -- Rectangle
    (FillRectangle s x y w h).calls = (s.Rectangle x y w h).calls ++ [Call.Fill] ∧
    (StrokeRectangle s x y w h).calls = (s.Rectangle x y w h).calls ++ [Call.Stroke] ∧
    -- RoundRectangle
    (StrokeRoundRectangle M s x y w h r).calls
      = (RoundRectangle M s x y w h r).calls ++ [Call.Stroke] ∧
    (FillRoundRectangle M s x y w h r).calls
      = (RoundRectangle M s x y w h r).calls ++ [Call.Fill] ∧
    -- Circle
    (FillCircle M s x y r).calls = (Circle M s x y r).calls ++ [Call.Fill] ∧
    (StrokeCircle M s x y r).calls = (Circle M s x y r).calls ++ [Call.Stroke] ∧
    -- Ellipse
    (FillEllipse M s x y xr yr).calls = (Ellipse M s x y xr yr).calls ++ [Call.Fill] ∧
    (StrokeEllipse M s x y xr yr).calls = (Ellipse M s x y xr yr).calls ++ [Call.Stroke] ∧
    -- Path
    (FillPath s pts).calls = (Path s pts).calls ++ [Call.Fill] ∧
    (StrokePath s pts false).calls = (Path s pts).calls ++ [Call.Stroke] ∧
    (StrokePath s pts true).calls = (Path s pts).calls ++ [Call.ClosePath, Call.Stroke] ∧
    -- Polygon
    (StrokePolygon M s x y r sides rotation).calls
      = (Polygon M s x y r sides rotation).calls ++ [Call.Stroke] ∧
    (FillPolygon M s x y r sides rotation).calls
      = (Polygon M s x y r sides rotation).calls ++ [Call.Fill] ∧
    -- Star
    (StrokeStar M s x y r0 r1 points rotation).calls
      = (Star M s x y r0 r1 points rotation).calls ++ [Call.Stroke] ∧
    (FillStar M s x y r0 r1 points rotation).calls
      = (Star M s x y r0 r1 points rotation).calls ++ [Call.Fill] ∧
    -- Heart
    (FillHeart M s x y w h r).calls = (Heart M s x y w h r).calls ++ [Call.Fill] ∧
    (StrokeHeart M s x y w h r).calls = (Heart M s x y w h r).calls ++ [Call.Stroke] ∧
    -- CurveTo and QuadraticCurveTo
    (StrokeCurveTo s x0 y0 x1 y1 x2 y2).calls
      = (s.CurveTo x0 y0 x1 y1 x2 y2).calls ++ [Call.Stroke] ∧
    (StrokeQuadraticCurveTo s x0 y0 x1 y1).calls
      = (QuadraticCurveTo s x0 y0 x1 y1).calls ++ [Call.Stroke] ∧
    -- FractalLine (unexported variant)
    (strokeFractalLine M rand s x0 y0 x1 y1 roughness iterations).calls
      = (FractalLine M rand s x0 y0 x1 y1 roughness iterations).calls ++ [Call.Stroke] ∧
    -- Splat
    ((∀ t, Splat M rand s x y numNodes radius innerRadius variation = .ok t →
        StrokeSplat M rand s x y numNodes radius innerRadius variation = .ok t.Stroke ∧
        t.Stroke.calls = t.calls ++ [Call.Stroke]) ∧
      (∀ e, Splat M rand s x y numNodes radius innerRadius variation = .error e →
        StrokeSplat M rand s x y numNodes radius innerRadius variation = .error e)) ∧
    ((∀ t, Splat M rand s x y numNodes radius innerRadius variation = .ok t →
        FillSplat M rand s x y numNodes radius innerRadius variation = .ok t.Fill ∧
        t.Fill.calls = t.calls ++ [Call.Fill]) ∧
      (∀ e, Splat M rand s x y numNodes radius innerRadius variation = .error e →
        FillSplat M rand s x y numNodes radius innerRadius variation = .error e)) ∧
    -- MultiCurve
    ((∀ t, MultiCurve s pts = .ok t →
        StrokeMultiCurve s pts = .ok t.Stroke ∧ t.Stroke.calls = t.calls ++ [Call.Stroke]) ∧
      (∀ e, MultiCurve s pts = .error e → StrokeMultiCurve s pts = .error e)) ∧
    -- MultiLoop
    ((∀ t, MultiLoop s pts = .ok t →
        FillMultiLoop s pts = .ok t.Fill ∧ t.Fill.calls = t.calls ++ [Call.Fill]) ∧
      (∀ e, MultiLoop s pts = .error e → FillMultiLoop s pts = .error e)) ∧
    ((∀ t, MultiLoop s pts = .ok t →
        StrokeMultiLoop s pts = .ok t.Stroke ∧ t.Stroke.calls = t.calls ++ [Call.Stroke]) ∧
      (∀ e, MultiLoop s pts = .error e → StrokeMultiLoop s pts = .error e)) := by
  refine ⟨issue_calls _ _, issue_calls _ _, issue_calls _ _, issue_calls _ _, issue_calls _ _,
    issue_calls _ _, issue_calls _ _, issue_calls _ _, issue_calls _ _, issue_calls _ _, ?_,
    issue_calls _ _, issue_calls _ _, issue_calls _ _, issue_calls _ _, issue_calls _ _,
    issue_calls _ _, issue_calls _ _, issue_calls _ _, issue_calls _ _,
    paint_after _ Call.Stroke, paint_after _ Call.Fill, paint_after _ Call.Stroke,
    paint_after _ Call.Fill, paint_after _ Call.Stroke⟩
  simp [StrokePath, BitSurface.ClosePath, BitSurface.Stroke, issue_calls]

theorem paint_variant_calls_witness :
    MultiLoop (BitSurface.mk [] ((0 : ℝ), (0 : ℝ)) [] []) [NewPoint (1 : ℝ) 2]
      = .ok (BitSurface.mk [Call.MoveTo 1 2, Call.CurveTo 1 2 1 2 1 2] (1, 2) [] []) ∧
    StrokeMultiLoop (BitSurface.mk [] ((0 : ℝ), (0 : ℝ)) [] []) [NewPoint (1 : ℝ) 2]
      = .ok (BitSurface.mk [Call.MoveTo 1 2, Call.CurveTo 1 2 1 2 1 2] (1, 2) [] []).Stroke ∧
    (BitSurface.mk [Call.MoveTo 1 2, Call.CurveTo 1 2 1 2 1 2]
        ((1 : ℝ), (2 : ℝ)) [] []).Stroke.calls
      = [Call.MoveTo 1 2, Call.CurveTo 1 2 1 2 1 2] ++ [Call.Stroke] := by
  have hrun : MultiLoop (BitSurface.mk [] ((0 : ℝ), (0 : ℝ)) [] []) [NewPoint (1 : ℝ) 2]
      = .ok (BitSurface.mk [Call.MoveTo 1 2, Call.CurveTo 1 2 1 2 1 2] (1, 2) [] []) := by
    simp [MultiLoop, QuadraticCurveTo, BitSurface.CurveTo, BitSurface.MoveTo, BitSurface.issue,
      BitSurface.GetCurrentPoint, NewPoint, pure, Except.pure, bind, Except.bind]
    norm_num
  exact ⟨hrun, (paint_variant_calls
    (GoMath.mk Real.pi Real.sqrt Real.cos Real.sin (fun y x => Complex.arg ⟨x, y⟩)
      (fun p q => Real.sqrt (p * p + q * q)) (fun b e => b ^ e)) (fun _ => 1 / 2)
    (BitSurface.mk [] ((0 : ℝ), (0 : ℝ)) [] []) 0 0 0 0 0 0 0 0 0 0 0 0 0 0 0 0 0 0 0 0 0 0 0 0
    [NewPoint (1 : ℝ) 2]).2.2.2.2.2.2.2.2.2.2.2.2.2.2.2.2.2.2.2.2.2.2.2.2.1 _ hrun⟩

end

end bitlibgo

namespace bitlibgo

open geom

theorem foldl_issue_calls {β γ : Type} (c : γ → Call β) (l : List γ) :
    ∀ s : BitSurface β, (l.foldl (fun s a => s.issue (c a)) s).calls = s.calls ++ l.map c := by
  induction l with
  | nil => intro s; simp
  | cons a l ih =>
    intro s
    rw [List.foldl_cons, ih, issue_calls]
    simp

section

variable {α : Type} [LinearOrderedField α]

theorem Polygon_calls (M : GoMath α) (s : BitSurface α) (x y r : α) (sides : Int)
    (rotation : α) :
    (Polygon M s x y r sides rotation).calls = s.calls ++
      ([Call.Save, Call.Translate x y, Call.Rotate rotation, Call.MoveTo r 0] ++
        (List.range sides.toNat).map (fun i : Nat =>
          Call.LineTo (M.Cos (bitmath.TwoPi M.Pi / (sides : α) * (i : α)) * r)
            (M.Sin (bitmath.TwoPi M.Pi / (sides : α) * (i : α)) * r))
        ++ [Call.LineTo r 0, Call.Restore]) := by
  simp only [Polygon, BitSurface.Restore, BitSurface.LineTo, issue_calls, foldl_issue_calls,
    BitSurface.MoveTo, BitSurface.Rotate, BitSurface.Translate, BitSurface.Save]
  simp

theorem Star_calls (M : GoMath α) (s : BitSurface α) (x y r0 r1 : α) (points : Int)
    (rotation : α) :
    (Star M s x y r0 r1 points rotation).calls = s.calls ++
      ([Call.Save, Call.Translate x y, Call.Rotate rotation] ++
        (List.range (wrapInt (points * 2)).toNat).map (fun i : Nat =>
          Call.LineTo
            (M.Cos (M.Pi / (points : α) * (i : α)) * (if i % 2 = 1 then r0 else r1))
            (M.Sin (M.Pi / (points : α) * (i : α)) * (if i % 2 = 1 then r0 else r1)))
        ++ [Call.ClosePath, Call.Restore]) := by
  simp only [Star, BitSurface.Restore, BitSurface.ClosePath, BitSurface.LineTo, issue_calls,
    foldl_issue_calls, BitSurface.Rotate, BitSurface.Translate, BitSurface.Save]
  simp

end

section RealShapes

/-- C13: for every `r` and `sides = n ≥ 0`, `Polygon 0 0 r n 0` issues, after the
opening `MoveTo r 0`, exactly `n + 1` calls `LineTo`, to
`(cos (2 π i / n) r, sin (2 π i / n) r)` for `i = 0, ..., n`, the last of them being
`LineTo r 0`; with `n = 0` the only `LineTo` is the closing one. -/
theorem Polygon_vertices (M : GoMath ℝ) (hpi : M.Pi = Real.pi) (hcos : M.Cos = Real.cos)
    (hsin : M.Sin = Real.sin) (s : BitSurface ℝ) (r : ℝ) (n : Nat) :
    (Polygon M s 0 0 r (n : Int) 0).calls = s.calls ++
      ([Call.Save, Call.Translate 0 0, Call.Rotate 0, Call.MoveTo r 0] ++
        (List.range (n + 1)).map (fun i : Nat =>
          Call.LineTo (Real.cos (2 * Real.pi * i / n) * r) (Real.sin (2 * Real.pi * i / n) * r))
        ++ [Call.Restore]) ∧
    ((List.range (n + 1)).map (fun i : Nat =>
        Call.LineTo (Real.cos (2 * Real.pi * i / n) * r)
          (Real.sin (2 * Real.pi * i / n) * r))).getLast? = some (Call.LineTo r 0) ∧
    (Polygon M s 0 0 r 0 0).calls = s.calls ++
      [Call.Save, Call.Translate 0 0, Call.Rotate 0, Call.MoveTo r 0, Call.LineTo r 0,
        Call.Restore] := by
  have hlast : Call.LineTo (Real.cos (2 * Real.pi * (n : ℝ) / n) * r)
      (Real.sin (2 * Real.pi * (n : ℝ) / n) * r) = Call.LineTo r 0 := by
    rcases Nat.eq_zero_or_pos n with h0 | hpos
    · subst h0; simp
    · have hn : (n : ℝ) ≠ 0 := by exact_mod_cast hpos.ne'
      rw [mul_div_assoc, div_self hn, mul_one, Real.cos_two_pi, Real.sin_two_pi]
      simp
  have hrun : ∀ m : Nat, (Polygon M s 0 0 r (m : Int) 0).calls = s.calls ++
      ([Call.Save, Call.Translate 0 0, Call.Rotate 0, Call.MoveTo r 0] ++
        (List.range m).map (fun i : Nat =>
          Call.LineTo (Real.cos (2 * Real.pi * i / m) * r) (Real.sin (2 * Real.pi * i / m) * r))
        ++ [Call.LineTo r 0, Call.Restore]) := by
    intro m
    rw [Polygon_calls, Int.toNat_ofNat]
    congr 2
    congr 1
    apply List.map_congr_left
    intro i _
    have e : bitmath.TwoPi M.Pi / ((m : Int) : ℝ) * (i : ℝ) = 2 * Real.pi * i / m := by
      rw [hpi, bitmath.TwoPi]; push_cast; ring
    rw [e, hcos, hsin]
  refine ⟨?_, ?_, ?_⟩
  · rw [hrun n, List.range_succ, List.map_append, List.map_singleton, hlast]
    simp
  · rw [List.range_succ, List.map_append, List.map_singleton, hlast]
    simp
  · have := hrun 0
    simpa using this

theorem Polygon_vertices_witness :
    (GoMath.mk Real.pi Real.sqrt Real.cos Real.sin (fun y x => Complex.arg ⟨x, y⟩)
      (fun p q => Real.sqrt (p * p + q * q)) (fun b e => b ^ e)).Pi = Real.pi ∧
    (Polygon
      (GoMath.mk Real.pi Real.sqrt Real.cos Real.sin (fun y x => Complex.arg ⟨x, y⟩)
        (fun p q => Real.sqrt (p * p + q * q)) (fun b e => b ^ e))
      (BitSurface.mk [] (0, 0) [] []) 0 0 2 ((4 : Nat) : Int) 0).calls = [] ++
      ([Call.Save, Call.Translate 0 0, Call.Rotate 0, Call.MoveTo 2 0] ++
        (List.range (4 + 1)).map (fun i : Nat =>
          Call.LineTo (Real.cos (2 * Real.pi * i / (4 : Nat)) * 2)
            (Real.sin (2 * Real.pi * i / (4 : Nat)) * 2))
        ++ [Call.Restore]) :=
  ⟨rfl, (Polygon_vertices _ rfl rfl rfl _ 2 4).1⟩

/-- C14 on the code: with `points = 2^62` the `int` product `points*2` wraps to
`-2^63`, the loop body never runs and `Star` issues no `LineTo`. -/
theorem Star_overflow_no_vertices :
    (Star (GoMath.mk Real.pi Real.sqrt Real.cos Real.sin (fun y x => Complex.arg ⟨x, y⟩)
        (fun p q => Real.sqrt (p * p + q * q)) (fun b e => b ^ e))
      (BitSurface.mk [] (0, 0) [] []) 0 0 1 2 (2 ^ 62) 0).calls
      = [Call.Save, Call.Translate 0 0, Call.Rotate 0, Call.ClosePath, Call.Restore] ∧
    wrapInt (2 ^ 62 * 2) = -2 ^ 63 := by
  have hw : wrapInt (2 ^ 62 * 2) = -2 ^ 63 := by
    norm_num [wrapInt]
  refine ⟨?_, hw⟩
  rw [Star_calls, hw]
  rfl

/-- C14, amended: for every `r0`, `r1` and `points = n` with `1 ≤ n < 2^62` (so that
`points*2` does not overflow `int`), `Star 0 0 r0 r1 n 0` issues exactly `2 n` calls
`LineTo` with no `MoveTo` before them, the `i`-th to
`(cos (π i / n) rad_i, sin (π i / n) rad_i)` with `rad_i = r1` for even `i` and `r0`
for odd `i`, and then one `ClosePath`. -/
theorem Star_vertices (M : GoMath ℝ) (hpi : M.Pi = Real.pi) (hcos : M.Cos = Real.cos)
    (hsin : M.Sin = Real.sin) (s : BitSurface ℝ) (r0 r1 : ℝ) (n : Nat)
    (h1 : 1 ≤ n) (h2 : n < 2 ^ 62) :
    (Star M s 0 0 r0 r1 (n : Int) 0).calls = s.calls ++
      ([Call.Save, Call.Translate 0 0, Call.Rotate 0] ++
        (List.range (2 * n)).map (fun i : Nat =>
          Call.LineTo (Real.cos (Real.pi * i / n) * (if i % 2 = 0 then r1 else r0))
            (Real.sin (Real.pi * i / n) * (if i % 2 = 0 then r1 else r0)))
        ++ [Call.ClosePath, Call.Restore]) ∧
    ((List.range (2 * n)).map (fun i : Nat =>
        Call.LineTo (Real.cos (Real.pi * i / n) * (if i % 2 = 0 then r1 else r0))
          (Real.sin (Real.pi * i / n) * (if i % 2 = 0 then r1 else r0)))).length = 2 * n := by
  have hw : (wrapInt ((n : Int) * 2)).toNat = 2 * n := by
    have : wrapInt ((n : Int) * 2) = ((2 * n : Nat) : Int) := by
      unfold wrapInt
      have h3 : (n : Int) < 2 ^ 62 := by exact_mod_cast h2
      norm_num at h3 ⊢
      omega
    rw [this, Int.toNat_ofNat]
  refine ⟨?_, by simp⟩
  rw [Star_calls, hw]
  clear hw h2
  congr 2
  congr 1
  apply List.map_congr_left
  intro i _
  have e : M.Pi / ((n : Int) : ℝ) * (i : ℝ) = Real.pi * i / n := by
    rw [hpi]; push_cast; ring
  have er : (if i % 2 = 1 then r0 else r1) = (if i % 2 = 0 then r1 else r0) := by
    rcases Nat.mod_two_eq_zero_or_one i with h | h <;> simp [h]
  rw [e, er, hcos, hsin]

theorem Star_vertices_witness :
    (GoMath.mk Real.pi Real.sqrt Real.cos Real.sin (fun y x => Complex.arg ⟨x, y⟩)
      (fun p q => Real.sqrt (p * p + q * q)) (fun b e => b ^ e)).Pi = Real.pi ∧
    1 ≤ 5 ∧ 5 < 2 ^ 62 ∧
    (Star
      (GoMath.mk Real.pi Real.sqrt Real.cos Real.sin (fun y x => Complex.arg ⟨x, y⟩)
        (fun p q => Real.sqrt (p * p + q * q)) (fun b e => b ^ e))
      (BitSurface.mk [] (0, 0) [] []) 0 0 1 2 ((5 : Nat) : Int) 0).calls = [] ++
      ([Call.Save, Call.Translate 0 0, Call.Rotate 0] ++
        (List.range (2 * 5)).map (fun i : Nat =>
          Call.LineTo (Real.cos (Real.pi * i / (5 : Nat)) * (if i % 2 = 0 then 2 else 1))
            (Real.sin (Real.pi * i / (5 : Nat)) * (if i % 2 = 0 then 2 else 1)))
        ++ [Call.ClosePath, Call.Restore]) :=
  ⟨rfl, by norm_num, by norm_num, (Star_vertices _ rfl rfl rfl _ 1 2 5 (by norm_num)
    (by norm_num)).1⟩

end RealShapes

end bitlibgo

namespace bitlibgo

open geom

section

variable {α : Type} [LinearOrderedField α] [FloorRing α]

end

section RealHeart

end RealHeart

end bitlibgo

namespace bitlibgo

open geom

section SplatGeneric

variable {α : Type} [LinearOrderedField α]

theorem clamp_unit (v : α) : 0 ≤ bitmath.Clamp v 0 1 ∧ bitmath.Clamp v 0 1 ≤ 1 := by
  unfold bitmath.Clamp
  simp only [gt_iff_lt]
  have h01 : ¬ ((0 : α) > 1) := by norm_num
  split_ifs <;> constructor <;> linarith

/-- The loop of `Splat` appends, for `i = 0, 1, ...`, the five points of node `i`,
built from the sample `rand i` at the angle `i * (2 slice)`. -/
theorem splatPoints_eq (M : GoMath α) (rand : Nat → α) (numNodes : Int)
    (radius innerRadius variation : α) :
    splatPoints M rand numNodes radius innerRadius variation =
      (List.range numNodes.toNat).flatMap (fun i : Nat =>
        splatNode M (bitmath.TwoPi M.Pi / ((wrapInt (numNodes * 2) : Int) : α)) 0.3 radius
          innerRadius (bitmath.Clamp variation 0 1) (radius - innerRadius) (rand i)
          ((i : α) * (bitmath.TwoPi M.Pi / ((wrapInt (numNodes * 2) : Int) : α) * 2))) := by
  unfold splatPoints
  simp only []
  generalize bitmath.TwoPi M.Pi / ((wrapInt (numNodes * 2) : Int) : α) = slice
  generalize numNodes.toNat = n
  suffices h : (List.range n).foldl (fun (acc : List (Point α) × α) i =>
      (acc.1 ++ splatNode M slice 0.3 radius innerRadius (bitmath.Clamp variation 0 1)
        (radius - innerRadius) (rand i) acc.2, acc.2 + slice * 2)) ([], 0)
      = ((List.range n).flatMap (fun i : Nat =>
        splatNode M slice 0.3 radius innerRadius (bitmath.Clamp variation 0 1)
          (radius - innerRadius) (rand i) ((i : α) * (slice * 2))), (n : α) * (slice * 2)) by
    exact congrArg Prod.fst h
  induction n with
  | zero => simp
  | succ n ih =>
    rw [List.range_succ, List.foldl_append, ih, List.flatMap_append]
    simp only [List.foldl_cons, List.foldl_nil, List.flatMap_singleton]
    congr 1
    push_cast
    ring

theorem splatNode_length (M : GoMath α) (slice curve radius innerRadius v rr u angle : α) :
    (splatNode M slice curve radius innerRadius v rr u angle).length = 5 := rfl

theorem flatMap_range_length {β : Type} (f : Nat → List β) (k : Nat)
    (hf : ∀ i, (f i).length = k) (n : Nat) : ((List.range n).flatMap f).length = k * n := by
  induction n with
  | zero => simp
  | succ n ih =>
    rw [List.range_succ, List.flatMap_append, List.length_append, ih, List.flatMap_singleton, hf]
    ring

/-- The block of node `i` in a list built node by node from blocks of equal length. -/
theorem flatMap_range_block {β : Type} (f : Nat → List β) (k : Nat)
    (hf : ∀ i, (f i).length = k) (n : Nat) :
    ∀ i, i < n → (((List.range n).flatMap f).drop (k * i)).take k = f i := by
  induction n with
  | zero => intro i hi; omega
  | succ n ih =>
    intro i hi
    rw [List.range_succ, List.flatMap_append, List.flatMap_singleton]
    have hlen := flatMap_range_length f k hf n
    rcases Nat.lt_or_ge i n with h | h
    · have hle : k * i + k ≤ ((List.range n).flatMap f).length := by
        rw [hlen]; nlinarith
      rw [List.drop_append_of_le_length (by omega), List.take_append_of_le_length (by
        rw [List.length_drop]; omega)]
      exact ih i h
    · have hin : i = n := by omega
      subst hin
      rw [List.drop_append_eq_append_drop, hlen, Nat.sub_self, List.drop_zero,
        List.drop_of_length_le (by rw [hlen]), List.nil_append, List.take_of_length_le (by
          rw [hf])]

/-- The five points of node `i` of `Splat`, in the order in which they are appended. -/
theorem splatPoints_node (M : GoMath α) (rand : Nat → α) (numNodes : Int)
    (radius innerRadius variation : α) (i : Nat) (hi : i < numNodes.toNat) :
    ((splatPoints M rand numNodes radius innerRadius variation).drop (5 * i)).take 5 =
      splatNode M (bitmath.TwoPi M.Pi / ((wrapInt (numNodes * 2) : Int) : α)) 0.3 radius
        innerRadius (bitmath.Clamp variation 0 1) (radius - innerRadius) (rand i)
        ((i : α) * (bitmath.TwoPi M.Pi / ((wrapInt (numNodes * 2) : Int) : α) * 2)) := by
  rw [splatPoints_eq]
  refine flatMap_range_block _ 5 ?_ _ i hi
  intro _
  rfl

theorem getElem?_of_block {β : Type} (l b : List β) (k i j : Nat)
    (h : (l.drop (k * i)).take k = b) (hj : j < k) : l[k * i + j]? = b[j]? := by
  rw [← h, List.getElem?_take_of_lt hj, List.getElem?_drop]

end SplatGeneric

end bitlibgo

namespace bitlibgo

open geom

section SplatReal

/-- The distance from the centre of the point `makePoint angle rho`, for `rho ≥ 0`. -/
theorem makePoint_distance (M : GoMath ℝ) (hcos : M.Cos = Real.cos) (hsin : M.Sin = Real.sin)
    (angle rho : ℝ) (h : 0 ≤ rho) :
    Real.sqrt ((makePoint M angle rho).X ^ 2 + (makePoint M angle rho).Y ^ 2) = rho := by
  have e : (makePoint M angle rho).X ^ 2 + (makePoint M angle rho).Y ^ 2 = rho ^ 2 := by
    simp only [makePoint, NewPoint, hcos, hsin]
    nlinarith [Real.sin_sq_add_cos_sq angle]
  rw [e, Real.sqrt_sq h]

/-- The radial distances of the five points of a node: `innerRadius` twice,
`innerRadius + 0.8 (radius' - innerRadius)` for the third and the fifth, and
`radius'` for the tip, with `radius' = radius + v (2 u rr - rr)`. -/
theorem splatNode_distances (M : GoMath ℝ) (hcos : M.Cos = Real.cos) (hsin : M.Sin = Real.sin)
    (slice curve radius innerRadius v u angle : ℝ)
    (h0 : 0 ≤ innerRadius) (h1 : innerRadius ≤ radius) (hv : 0 ≤ v ∧ v ≤ 1)
    (hu : 0 ≤ u ∧ u < 1) :
    (splatNode M slice curve radius innerRadius v (radius - innerRadius) u angle).map
        (fun p => Real.sqrt (p.X ^ 2 + p.Y ^ 2))
      = [innerRadius, innerRadius,
         innerRadius + (radius + v * (u * (radius - innerRadius) * 2 - (radius - innerRadius))
           - innerRadius) * 0.8,
         radius + v * (u * (radius - innerRadius) * 2 - (radius - innerRadius)),
         innerRadius + (radius + v * (u * (radius - innerRadius) * 2 - (radius - innerRadius))
           - innerRadius) * 0.8] ∧
    innerRadius ≤ radius + v * (u * (radius - innerRadius) * 2 - (radius - innerRadius)) ∧
    radius + v * (u * (radius - innerRadius) * 2 - (radius - innerRadius))
      ≤ radius + v * (radius - innerRadius) := by
  have hrr : 0 ≤ radius - innerRadius := by linarith
  have hlo : innerRadius
      ≤ radius + v * (u * (radius - innerRadius) * 2 - (radius - innerRadius)) := by
    nlinarith [mul_nonneg hv.1 hrr, mul_nonneg hu.1 hrr, mul_nonneg (mul_nonneg hv.1 hu.1) hrr,
      mul_nonneg (sub_nonneg.mpr hv.2) hrr]
  have hhi : radius + v * (u * (radius - innerRadius) * 2 - (radius - innerRadius))
      ≤ radius + v * (radius - innerRadius) := by
    nlinarith [mul_nonneg hv.1 hrr, mul_nonneg (mul_nonneg hv.1 (sub_nonneg.mpr hu.2.le)) hrr]
  refine ⟨?_, hlo, hhi⟩
  simp only [splatNode, List.map_cons, List.map_nil]
  rw [makePoint_distance M hcos hsin _ _ h0, makePoint_distance M hcos hsin _ _ h0,
    makePoint_distance M hcos hsin _ _ (by linarith),
    makePoint_distance M hcos hsin _ _ (by linarith),
    makePoint_distance M hcos hsin _ _ (by linarith)]

/-- The radial distances of the five points of node `i` of `Splat`. -/
theorem splatPoints_distances (M : GoMath ℝ) (hcos : M.Cos = Real.cos)
    (hsin : M.Sin = Real.sin) (rand : Nat → ℝ) (numNodes : Int)
    (radius innerRadius variation : ℝ) (h0 : 0 ≤ innerRadius) (h1 : innerRadius ≤ radius)
    (i : Nat) (hi : i < numNodes.toNat) (hu : 0 ≤ rand i ∧ rand i < 1) :
    (((splatPoints M rand numNodes radius innerRadius variation).drop (5 * i)).take 5).map
        (fun p => Real.sqrt (p.X ^ 2 + p.Y ^ 2))
      = [innerRadius, innerRadius,
         innerRadius + (radius + bitmath.Clamp variation 0 1 *
           (rand i * (radius - innerRadius) * 2 - (radius - innerRadius)) - innerRadius) * 0.8,
         radius + bitmath.Clamp variation 0 1 *
           (rand i * (radius - innerRadius) * 2 - (radius - innerRadius)),
         innerRadius + (radius + bitmath.Clamp variation 0 1 *
           (rand i * (radius - innerRadius) * 2 - (radius - innerRadius)) - innerRadius)
           * 0.8] := by
  rw [splatPoints_node M rand numNodes radius innerRadius variation i hi]
  exact (splatNode_distances M hcos hsin _ _ radius innerRadius _ _ _ h0 h1
    (clamp_unit variation) hu).1

theorem clamp_one : bitmath.Clamp (1 : ℝ) 0 1 = 1 := by
  unfold bitmath.Clamp
  norm_num

/-- C18 on the code: with `radius = 2`, `innerRadius = 1`, `variation = 1` and the
sample `U = 3/4`, the tip of the node is at distance `5/2` from the centre, beyond
`radius`. -/
theorem Splat_tip_beyond_radius :
    ((splatPoints
        (GoMath.mk Real.pi Real.sqrt Real.cos Real.sin (fun y x => Complex.arg ⟨x, y⟩)
          (fun p q => Real.sqrt (p * p + q * q)) (fun b e => b ^ e))
        (fun _ => 3 / 4) 1 2 1 1)[3]?).map (fun p => Real.sqrt (p.X ^ 2 + p.Y ^ 2))
      = some (5 / 2) ∧
    ¬ ((5 : ℝ) / 2 ≤ 2) := by
  refine ⟨?_, by norm_num⟩
  have h := splatPoints_distances
    (GoMath.mk Real.pi Real.sqrt Real.cos Real.sin (fun y x => Complex.arg ⟨x, y⟩)
      (fun p q => Real.sqrt (p * p + q * q)) (fun b e => b ^ e)) rfl rfl
    (fun _ => 3 / 4) 1 2 1 1 (by norm_num) (by norm_num) 0 (by decide) (by norm_num)
  have h3 := congrArg (fun l => l[3]?) h
  simp only [Nat.mul_zero, List.drop_zero, List.getElem?_map, clamp_one] at h3
  rw [List.getElem?_take_of_lt (by norm_num)] at h3
  rw [h3]
  norm_num

/-- C18, amended: for `numNodes ≥ 1`, `0 ≤ innerRadius ≤ radius`, every `variation`
(clamped to `[0, 1]`) and samples in `[0, 1)`, `Splat` builds `5 numNodes` control
points, each at a distance `rho` from the centre with
`innerRadius ≤ rho ≤ radius + variation (radius - innerRadius)`; the tip of node `i`
is at `radius + variation (2 U rr - rr)`, `rr = radius - innerRadius`. -/
theorem Splat_radial_bounds (M : GoMath ℝ) (hcos : M.Cos = Real.cos)
    (hsin : M.Sin = Real.sin) (rand : Nat → ℝ) (numNodes : Int)
    (radius innerRadius variation : ℝ) (_hn : 1 ≤ numNodes) (h0 : 0 ≤ innerRadius)
    (h1 : innerRadius ≤ radius) (hU : ∀ i, 0 ≤ rand i ∧ rand i < 1) :
    (splatPoints M rand numNodes radius innerRadius variation).length = 5 * numNodes.toNat ∧
    (∀ p ∈ splatPoints M rand numNodes radius innerRadius variation,
      innerRadius ≤ Real.sqrt (p.X ^ 2 + p.Y ^ 2) ∧
      Real.sqrt (p.X ^ 2 + p.Y ^ 2)
        ≤ radius + bitmath.Clamp variation 0 1 * (radius - innerRadius)) ∧
    (∀ i, i < numNodes.toNat →
      ((splatPoints M rand numNodes radius innerRadius variation)[5 * i + 3]?).map
          (fun p => Real.sqrt (p.X ^ 2 + p.Y ^ 2))
        = some (radius + bitmath.Clamp variation 0 1 *
          (rand i * (radius - innerRadius) * 2 - (radius - innerRadius)))) := by
  refine ⟨?_, ?_, ?_⟩
  · rw [splatPoints_eq]
    refine flatMap_range_length _ 5 ?_ _
    intro _
    rfl
  · intro p hp
    rw [splatPoints_eq, List.mem_flatMap] at hp
    obtain ⟨i, _, hpi⟩ := hp
    have hv := clamp_unit variation
    obtain ⟨hd, hlo, hhi⟩ := splatNode_distances M hcos hsin
      (bitmath.TwoPi M.Pi / ((wrapInt (numNodes * 2) : Int) : ℝ)) 0.3 radius innerRadius
      (bitmath.Clamp variation 0 1) (rand i)
      ((i : ℝ) * (bitmath.TwoPi M.Pi / ((wrapInt (numNodes * 2) : Int) : ℝ) * 2)) h0 h1 hv
      (hU i)
    have hmem : Real.sqrt (p.X ^ 2 + p.Y ^ 2) ∈
        (splatNode M (bitmath.TwoPi M.Pi / ((wrapInt (numNodes * 2) : Int) : ℝ)) 0.3 radius
          innerRadius (bitmath.Clamp variation 0 1) (radius - innerRadius) (rand i)
          ((i : ℝ) * (bitmath.TwoPi M.Pi / ((wrapInt (numNodes * 2) : Int) : ℝ) * 2))).map
          (fun p => Real.sqrt (p.X ^ 2 + p.Y ^ 2)) :=
      List.mem_map_of_mem _ hpi
    rw [hd] at hmem
    have hrr : 0 ≤ radius - innerRadius := by linarith
    have hvr : 0 ≤ bitmath.Clamp variation 0 1 * (radius - innerRadius) :=
      mul_nonneg hv.1 hrr
    simp only [List.mem_cons, List.mem_singleton, List.not_mem_nil, or_false] at hmem
    rcases hmem with h | h | h | h | h <;> rw [h] <;> constructor <;> norm_num <;> linarith
  · intro i hi
    have h := splatPoints_distances M hcos hsin rand numNodes radius innerRadius variation
      h0 h1 i hi (hU i)
    have h3 := congrArg (fun l => l[3]?) h
    simp only [List.getElem?_map] at h3
    rw [List.getElem?_take_of_lt (by norm_num), List.getElem?_drop] at h3
    rw [h3]
    rfl

theorem Splat_radial_bounds_witness :
    (1 : Int) ≤ 3 ∧ (0 : ℝ) ≤ 1 ∧ (1 : ℝ) ≤ 2 ∧
    (∀ i : Nat, (0 : ℝ) ≤ (fun _ => 3 / 4 : Nat → ℝ) i ∧ (fun _ => 3 / 4 : Nat → ℝ) i < 1) ∧
    (splatPoints
      (GoMath.mk Real.pi Real.sqrt Real.cos Real.sin (fun y x => Complex.arg ⟨x, y⟩)
        (fun p q => Real.sqrt (p * p + q * q)) (fun b e => b ^ e))
      (fun _ => 3 / 4) 3 2 1 (1 / 2)).length = 5 * (3 : Int).toNat ∧
    (∀ p ∈ splatPoints
        (GoMath.mk Real.pi Real.sqrt Real.cos Real.sin (fun y x => Complex.arg ⟨x, y⟩)
          (fun p q => Real.sqrt (p * p + q * q)) (fun b e => b ^ e))
        (fun _ => 3 / 4) 3 2 1 (1 / 2),
      (1 : ℝ) ≤ Real.sqrt (p.X ^ 2 + p.Y ^ 2) ∧
      Real.sqrt (p.X ^ 2 + p.Y ^ 2) ≤ 2 + bitmath.Clamp (1 / 2) 0 1 * (2 - 1)) :=
  ⟨by norm_num, by norm_num, by norm_num, fun _ => by norm_num,
    (Splat_radial_bounds _ rfl rfl (fun _ => 3 / 4) 3 2 1 (1 / 2) (by norm_num) (by norm_num)
      (by norm_num) (fun _ => by norm_num)).1,
    (Splat_radial_bounds _ rfl rfl (fun _ => 3 / 4) 3 2 1 (1 / 2) (by norm_num) (by norm_num)
      (by norm_num) (fun _ => by norm_num)).2.1⟩

end SplatReal

end bitlibgo

namespace bitlibgo

open geom

section SplatNodes

/-- C19 on the code: with `radius = 2`, `innerRadius = 1`, `variation = 1`, the third
control point of the node is at distance `9/5` from the centre for the sample
`U = 1/2` and at `11/5` for `U = 3/4`: its position depends on the sample. -/
theorem Splat_third_point_depends_on_sample :
    ((splatPoints
        (GoMath.mk Real.pi Real.sqrt Real.cos Real.sin (fun y x => Complex.arg ⟨x, y⟩)
          (fun p q => Real.sqrt (p * p + q * q)) (fun b e => b ^ e))
        (fun _ => 1 / 2) 1 2 1 1)[2]?).map (fun p => Real.sqrt (p.X ^ 2 + p.Y ^ 2))
      = some (9 / 5) ∧
    ((splatPoints
        (GoMath.mk Real.pi Real.sqrt Real.cos Real.sin (fun y x => Complex.arg ⟨x, y⟩)
          (fun p q => Real.sqrt (p * p + q * q)) (fun b e => b ^ e))
        (fun _ => 3 / 4) 1 2 1 1)[2]?).map (fun p => Real.sqrt (p.X ^ 2 + p.Y ^ 2))
      = some (11 / 5) ∧
    (splatPoints
        (GoMath.mk Real.pi Real.sqrt Real.cos Real.sin (fun y x => Complex.arg ⟨x, y⟩)
          (fun p q => Real.sqrt (p * p + q * q)) (fun b e => b ^ e))
        (fun _ => 1 / 2) 1 2 1 1)[2]?
      ≠ (splatPoints
        (GoMath.mk Real.pi Real.sqrt Real.cos Real.sin (fun y x => Complex.arg ⟨x, y⟩)
          (fun p q => Real.sqrt (p * p + q * q)) (fun b e => b ^ e))
        (fun _ => 3 / 4) 1 2 1 1)[2]? := by
  have key : ∀ u : ℝ, 0 ≤ u ∧ u < 1 →
      ((splatPoints
        (GoMath.mk Real.pi Real.sqrt Real.cos Real.sin (fun y x => Complex.arg ⟨x, y⟩)
          (fun p q => Real.sqrt (p * p + q * q)) (fun b e => b ^ e))
        (fun _ => u) 1 2 1 1)[2]?).map (fun p => Real.sqrt (p.X ^ 2 + p.Y ^ 2))
      = some (1 + (2 + 1 * (u * (2 - 1) * 2 - (2 - 1)) - 1) * 0.8) := by
    intro u hu
    have h := splatPoints_distances
      (GoMath.mk Real.pi Real.sqrt Real.cos Real.sin (fun y x => Complex.arg ⟨x, y⟩)
        (fun p q => Real.sqrt (p * p + q * q)) (fun b e => b ^ e)) rfl rfl
      (fun _ => u) 1 2 1 1 (by norm_num) (by norm_num) 0 (by decide) hu
    have h2 := congrArg (fun l => l[2]?) h
    simp only [Nat.mul_zero, List.drop_zero, List.getElem?_map, clamp_one] at h2
    rw [List.getElem?_take_of_lt (by norm_num)] at h2
    rw [h2]
    rfl
  have ha := key (1 / 2) (by norm_num)
  have hb := key (3 / 4) (by norm_num)
  have ha' : (1 : ℝ) + (2 + 1 * (1 / 2 * (2 - 1) * 2 - (2 - 1)) - 1) * 0.8 = 9 / 5 := by
    norm_num
  have hb' : (1 : ℝ) + (2 + 1 * (3 / 4 * (2 - 1) * 2 - (2 - 1)) - 1) * 0.8 = 11 / 5 := by
    norm_num
  rw [ha'] at ha
  rw [hb'] at hb
  refine ⟨ha, hb, ?_⟩
  intro hne
  rw [hne, hb] at ha
  norm_num at ha

variable {α : Type} [LinearOrderedField α]

/-- C19, amended: in `Splat` the radius range recomputed after the perturbation is
the one used for the points of the node.  With `rr = radius - innerRadius`,
`radius' = radius + variation (2 U rr - rr)` the perturbed radius of node `i` and `a`
its angle, the five points are at `innerRadius`, `innerRadius`,
`innerRadius + 0.8 (radius' - innerRadius)`, `radius'` and
`innerRadius + 0.8 (radius' - innerRadius)`: the third, the tip and the fifth depend
on the sample `U` and on `variation`, the first two on neither. -/
theorem Splat_node_points (M : GoMath α) (rand : Nat → α) (numNodes : Int)
    (radius innerRadius variation : α) (i : Nat) (hi : i < numNodes.toNat)
    (slice a radius' : α)
    (hslice : slice = bitmath.TwoPi M.Pi / ((wrapInt (numNodes * 2) : Int) : α))
    (ha : a = (i : α) * (slice * 2))
    (hr : radius' = radius + bitmath.Clamp variation 0 1 *
      (rand i * (radius - innerRadius) * 2 - (radius - innerRadius))) :
    ((splatPoints M rand numNodes radius innerRadius variation).drop (5 * i)).take 5 =
      [makePoint M (a - slice * (1 + 0.3)) innerRadius,
       makePoint M (a + slice * 0.3) innerRadius,
       makePoint M (a - slice * 0.3) (innerRadius + (radius' - innerRadius) * 0.8),
       makePoint M (a + slice / 2) radius',
       makePoint M (a + slice * (1 + 0.3)) (innerRadius + (radius' - innerRadius) * 0.8)] ∧
    (∀ (rand' : Nat → α) (variation' : α),
      ((splatPoints M rand' numNodes radius innerRadius variation').drop (5 * i)).take 2 =
        [makePoint M (a - slice * (1 + 0.3)) innerRadius,
         makePoint M (a + slice * 0.3) innerRadius]) := by
  subst hslice ha hr
  refine ⟨?_, ?_⟩
  · rw [splatPoints_node M rand numNodes radius innerRadius variation i hi]
    rfl
  · intro rand' variation'
    have h := splatPoints_node M rand' numNodes radius innerRadius variation' i hi
    have h2 := congrArg (List.take 2) h
    rw [List.take_take] at h2
    simpa [splatNode] using h2

theorem Splat_node_points_witness :
    0 < (1 : Int).toNat ∧
    ((splatPoints
        (GoMath.mk Real.pi Real.sqrt Real.cos Real.sin (fun y x => Complex.arg ⟨x, y⟩)
          (fun p q => Real.sqrt (p * p + q * q)) (fun b e => b ^ e))
        (fun _ => 3 / 4) 1 2 1 1).drop (5 * 0)).take 5 =
      [makePoint
        (GoMath.mk Real.pi Real.sqrt Real.cos Real.sin (fun y x => Complex.arg ⟨x, y⟩)
          (fun p q => Real.sqrt (p * p + q * q)) (fun b e => b ^ e))
        ((0 : Nat) * (Real.pi * 2 / ((wrapInt (1 * 2) : Int) : ℝ) * 2)
          - Real.pi * 2 / ((wrapInt (1 * 2) : Int) : ℝ) * (1 + 0.3))
        1,
       makePoint
        (GoMath.mk Real.pi Real.sqrt Real.cos Real.sin (fun y x => Complex.arg ⟨x, y⟩)
          (fun p q => Real.sqrt (p * p + q * q)) (fun b e => b ^ e))
        ((0 : Nat) * (Real.pi * 2 / ((wrapInt (1 * 2) : Int) : ℝ) * 2)
          + Real.pi * 2 / ((wrapInt (1 * 2) : Int) : ℝ) * 0.3)
        1,
       makePoint
        (GoMath.mk Real.pi Real.sqrt Real.cos Real.sin (fun y x => Complex.arg ⟨x, y⟩)
          (fun p q => Real.sqrt (p * p + q * q)) (fun b e => b ^ e))
        ((0 : Nat) * (Real.pi * 2 / ((wrapInt (1 * 2) : Int) : ℝ) * 2)
          - Real.pi * 2 / ((wrapInt (1 * 2) : Int) : ℝ) * 0.3)
        (1 + (2 + bitmath.Clamp 1 0 1 * (3 / 4 * (2 - 1) * 2 - (2 - 1)) - 1) * 0.8),
       makePoint
        (GoMath.mk Real.pi Real.sqrt Real.cos Real.sin (fun y x => Complex.arg ⟨x, y⟩)
          (fun p q => Real.sqrt (p * p + q * q)) (fun b e => b ^ e))
        ((0 : Nat) * (Real.pi * 2 / ((wrapInt (1 * 2) : Int) : ℝ) * 2)
          + Real.pi * 2 / ((wrapInt (1 * 2) : Int) : ℝ) / 2)
        (2 + bitmath.Clamp 1 0 1 * (3 / 4 * (2 - 1) * 2 - (2 - 1))),
       makePoint
        (GoMath.mk Real.pi Real.sqrt Real.cos Real.sin (fun y x => Complex.arg ⟨x, y⟩)
          (fun p q => Real.sqrt (p * p + q * q)) (fun b e => b ^ e))
        ((0 : Nat) * (Real.pi * 2 / ((wrapInt (1 * 2) : Int) : ℝ) * 2)
          + Real.pi * 2 / ((wrapInt (1 * 2) : Int) : ℝ) * (1 + 0.3))
        (1 + (2 + bitmath.Clamp 1 0 1 * (3 / 4 * (2 - 1) * 2 - (2 - 1)) - 1) * 0.8)] :=
  ⟨by decide, (Splat_node_points
    (GoMath.mk Real.pi Real.sqrt Real.cos Real.sin (fun y x => Complex.arg ⟨x, y⟩)
      (fun p q => Real.sqrt (p * p + q * q)) (fun b e => b ^ e))
    (fun _ => 3 / 4) 1 2 1 1 0 (by decide) _ _ _ rfl rfl rfl).1⟩

end SplatNodes

end bitlibgo

namespace bitlibgo

open geom

section GridRuns

variable {α : Type} [LinearOrderedField α]

/-- The first loop of `Grid`, when it makes exactly `n` passes from `xx`: with more
fuel than passes it ends, having issued one `MoveTo`/`LineTo` pair per pass. -/
theorem gridColumns_run (x y w h xres : α) (n : Nat) :
    ∀ (fuel : Nat) (s : BitSurface α) (xx : α),
      (∀ k : Nat, k < n → xx + (k : α) * xres ≤ x + w) → x + w < xx + (n : α) * xres →
      n < fuel →
      gridColumns x y w h xres fuel s xx = some (s.replay ((List.range n).flatMap
        (fun k : Nat => [Call.MoveTo (xx + (k : α) * xres) y,
          Call.LineTo (xx + (k : α) * xres) (y + h)]))) := by
  induction n with
  | zero =>
    intro fuel s xx _ hexit hfuel
    obtain ⟨f, rfl⟩ : ∃ f, fuel = f + 1 := ⟨fuel - 1, by omega⟩
    have hnot : ¬ xx ≤ x + w := by
      simp only [Nat.cast_zero, zero_mul, add_zero] at hexit
      exact not_le.mpr hexit
    simp [gridColumns, hnot, BitSurface.replay]
  | succ n ih =>
    intro fuel s xx hpass hexit hfuel
    obtain ⟨f, rfl⟩ : ∃ f, fuel = f + 1 := ⟨fuel - 1, by omega⟩
    have h0 : xx ≤ x + w := by
      have := hpass 0 (by omega)
      simpa using this
    have hrec := ih f ((s.MoveTo xx y).LineTo xx (y + h)) (xx + xres)
      (fun k hk => by
        have := hpass (k + 1) (by omega)
        push_cast at this
        linarith)
      (by push_cast at hexit; linarith) (by omega)
    rw [gridColumns, if_pos h0, hrec, List.range_succ_eq_map, List.flatMap_cons,
      List.flatMap_map, replay_append]
    congr 2
    · simp [BitSurface.replay, BitSurface.MoveTo, BitSurface.LineTo]
    · apply List.flatMap_congr
      intro k _
      have e : xx + xres + (k : α) * xres = xx + ((k : α) + 1) * xres := by ring
      simp only [Function.comp, Nat.succ_eq_add_one, Nat.cast_add, Nat.cast_one, e]

/-- The second loop of `Grid`, in the same way. -/
theorem gridRows_run (x y w h yres : α) (n : Nat) :
    ∀ (fuel : Nat) (s : BitSurface α) (yy : α),
      (∀ k : Nat, k < n → yy + (k : α) * yres ≤ y + h) → y + h < yy + (n : α) * yres →
      n < fuel →
      gridRows x y w h yres fuel s yy = some (s.replay ((List.range n).flatMap
        (fun k : Nat => [Call.MoveTo x (yy + (k : α) * yres),
          Call.LineTo (x + w) (yy + (k : α) * yres)]))) := by
  induction n with
  | zero =>
    intro fuel s yy _ hexit hfuel
    obtain ⟨f, rfl⟩ : ∃ f, fuel = f + 1 := ⟨fuel - 1, by omega⟩
    have hnot : ¬ yy ≤ y + h := by
      simp only [Nat.cast_zero, zero_mul, add_zero] at hexit
      exact not_le.mpr hexit
    simp [gridRows, hnot, BitSurface.replay]
  | succ n ih =>
    intro fuel s yy hpass hexit hfuel
    obtain ⟨f, rfl⟩ : ∃ f, fuel = f + 1 := ⟨fuel - 1, by omega⟩
    have h0 : yy ≤ y + h := by
      have := hpass 0 (by omega)
      simpa using this
    have hrec := ih f ((s.MoveTo x yy).LineTo (x + w) yy) (yy + yres)
      (fun k hk => by
        have := hpass (k + 1) (by omega)
        push_cast at this
        linarith)
      (by push_cast at hexit; linarith) (by omega)
    rw [gridRows, if_pos h0, hrec, List.range_succ_eq_map, List.flatMap_cons,
      List.flatMap_map, replay_append]
    congr 2
    · simp [BitSurface.replay, BitSurface.MoveTo, BitSurface.LineTo]
    · apply List.flatMap_congr
      intro k _
      have e : yy + yres + (k : α) * yres = yy + ((k : α) + 1) * yres := by ring
      simp only [Function.comp, Nat.succ_eq_add_one, Nat.cast_add, Nat.cast_one, e]

end GridRuns

section GridFloor

variable {α : Type} [LinearOrderedField α] [FloorRing α]

/-- The number of passes of a loop of `Grid` over a length `w` with step `res > 0` is
`(⌊w / res⌋ + 1).toNat`: the test holds at the passes before it and fails after. -/
theorem grid_passes (a w res : α) (hres : 0 < res) :
    (∀ k : Nat, k < (⌊w / res⌋ + 1).toNat → a + (k : α) * res ≤ a + w) ∧
    a + w < a + (((⌊w / res⌋ + 1).toNat : Nat) : α) * res := by
  constructor
  · intro k hk
    have hk' : (k : Int) ≤ ⌊w / res⌋ := by omega
    have : ((k : Int) : α) ≤ w / res := Int.le_floor.mp hk'
    have h2 : (k : α) ≤ w / res := by exact_mod_cast this
    have := (le_div_iff₀ hres).mp h2
    linarith
  · have h1 : w / res < ((⌊w / res⌋ + 1 : Int) : α) := by
      push_cast
      exact Int.lt_floor_add_one _
    have h2 : ((⌊w / res⌋ + 1 : Int) : α) ≤ (((⌊w / res⌋ + 1).toNat : Nat) : α) := by
      have := Int.self_le_toNat (⌊w / res⌋ + 1)
      exact_mod_cast this
    have h3 : w / res < (((⌊w / res⌋ + 1).toNat : Nat) : α) := lt_of_lt_of_le h1 h2
    have := (div_lt_iff₀ hres).mp h3
    linarith

/-- `Grid` with positive steps: with enough fuel it returns, having issued the
vertical segments, then the horizontal ones, then `Stroke`. -/
theorem Grid_run (s : BitSurface α) (x y w h xres yres : α) (hx : 0 < xres) (hy : 0 < yres)
    (fuel : Nat) (hfx : (⌊w / xres⌋ + 1).toNat < fuel)
    (hfy : (⌊h / yres⌋ + 1).toNat < fuel) :
    Grid fuel s x y w h xres yres = some (s.replay (
      (List.range (⌊w / xres⌋ + 1).toNat).flatMap (fun k : Nat =>
        [Call.MoveTo (x + (k : α) * xres) y, Call.LineTo (x + (k : α) * xres) (y + h)]) ++
      (List.range (⌊h / yres⌋ + 1).toNat).flatMap (fun k : Nat =>
        [Call.MoveTo x (y + (k : α) * yres), Call.LineTo (x + w) (y + (k : α) * yres)]) ++
      [Call.Stroke])) := by
  have hc := gridColumns_run x y w h xres _ fuel s x (grid_passes x w xres hx).1
    (grid_passes x w xres hx).2 hfx
  have hr := gridRows_run x y w h yres _ fuel
    (s.replay ((List.range (⌊w / xres⌋ + 1).toNat).flatMap (fun k : Nat =>
        [Call.MoveTo (x + (k : α) * xres) y, Call.LineTo (x + (k : α) * xres) (y + h)])))
    y (grid_passes y h yres hy).1 (grid_passes y h yres hy).2 hfy
  simp only [Grid, hc, hr, Option.bind_eq_bind, Option.some_bind, pure, replay_append]
  rfl

end GridFloor

end bitlibgo

namespace bitlibgo

open geom

section Float64

end Float64

section GridClaims

variable {α : Type} [LinearOrderedField α] [FloorRing α]

theorem grid_count (w res : α) (hw : 0 ≤ w) (hres : 0 < res) :
    (⌊w / res⌋ + 1).toNat = ⌊w / res⌋₊ + 1 := by
  have h0 : 0 ≤ ⌊w / res⌋ := Int.floor_nonneg.mpr (div_nonneg hw hres.le)
  rw [← Int.floor_toNat]
  omega

/-- C15: for `w ≥ 0`, `h ≥ 0`, `xres > 0`, `yres > 0`, `Grid` (given enough fuel)
returns, having issued the `⌊w/xres⌋ + 1` vertical segments `MoveTo (x + k xres) y`,
`LineTo (x + k xres) (y + h)`, then the `⌊h/yres⌋ + 1` horizontal segments
`MoveTo x (y + k yres)`, `LineTo (x + w) (y + k yres)`, then one `Stroke`, its last
call; `Grid 0 0 10 10 5 5` gives verticals at `x = 0, 5, 10` and horizontals at
`y = 0, 5, 10`. -/
theorem Grid_segments (s : BitSurface α) (x y w h xres yres : α) (hw : 0 ≤ w) (hh : 0 ≤ h)
    (hx : 0 < xres) (hy : 0 < yres) :
    (∀ fuel : Nat, ⌊w / xres⌋₊ + 1 < fuel → ⌊h / yres⌋₊ + 1 < fuel →
      ∃ s' : BitSurface α, Grid fuel s x y w h xres yres = some s' ∧
        s'.calls = s.calls ++ (
          (List.range (⌊w / xres⌋₊ + 1)).flatMap (fun k : Nat =>
            [Call.MoveTo (x + (k : α) * xres) y, Call.LineTo (x + (k : α) * xres) (y + h)]) ++
          (List.range (⌊h / yres⌋₊ + 1)).flatMap (fun k : Nat =>
            [Call.MoveTo x (y + (k : α) * yres), Call.LineTo (x + w) (y + (k : α) * yres)]) ++
          [Call.Stroke])) ∧
    (∃ s' : BitSurface α, Grid 4 s 0 0 10 10 5 5 = some s' ∧
      s'.calls = s.calls ++
        [Call.MoveTo 0 0, Call.LineTo 0 10, Call.MoveTo 5 0, Call.LineTo 5 10,
         Call.MoveTo 10 0, Call.LineTo 10 10,
         Call.MoveTo 0 0, Call.LineTo 10 0, Call.MoveTo 0 5, Call.LineTo 10 5,
         Call.MoveTo 0 10, Call.LineTo 10 10,
         Call.Stroke]) := by
  constructor
  · intro fuel hfx hfy
    refine ⟨_, Grid_run s x y w h xres yres hx hy fuel
      (by rw [grid_count w xres hw hx]; exact hfx)
      (by rw [grid_count h yres hh hy]; exact hfy), ?_⟩
    rw [replay_calls, grid_count w xres hw hx, grid_count h yres hh hy]
  · have h2 : ⌊(10 : α) / 5⌋ = 2 := by
      rw [Int.floor_eq_iff]
      constructor <;> norm_num
    have hrun := Grid_run s (0 : α) 0 10 10 5 5 (by norm_num) (by norm_num) 4
      (by rw [h2]; decide) (by rw [h2]; decide)
    refine ⟨_, hrun, ?_⟩
    rw [replay_calls, h2]
    have h3 : ((2 : Int) + 1).toNat = 3 := by decide
    rw [h3]
    simp [List.range_succ, List.flatMap]
    norm_num

theorem Grid_segments_witness :
    (0 : ℚ) ≤ 10 ∧ (0 : ℚ) ≤ 7 ∧ (0 : ℚ) < 4 ∧ (0 : ℚ) < 5 ∧
    ∀ fuel : Nat, ⌊(10 : ℚ) / 4⌋₊ + 1 < fuel → ⌊(7 : ℚ) / 5⌋₊ + 1 < fuel →
      ∃ s' : BitSurface ℚ, Grid fuel (BitSurface.mk [] (0, 0) [] []) 1 2 10 7 4 5 = some s' ∧
        s'.calls = [] ++ (
          (List.range (⌊(10 : ℚ) / 4⌋₊ + 1)).flatMap (fun k : Nat =>
            [Call.MoveTo (1 + (k : ℚ) * 4) 2, Call.LineTo (1 + (k : ℚ) * 4) (2 + 7)]) ++
          (List.range (⌊(7 : ℚ) / 5⌋₊ + 1)).flatMap (fun k : Nat =>
            [Call.MoveTo 1 (2 + (k : ℚ) * 5), Call.LineTo (1 + 10) (2 + (k : ℚ) * 5)]) ++
          [Call.Stroke]) :=
  ⟨by norm_num, by norm_num, by norm_num, by norm_num,
    (Grid_segments (BitSurface.mk [] (0, 0) [] []) (1 : ℚ) 2 10 7 4 5 (by norm_num) (by norm_num)
      (by norm_num) (by norm_num)).1⟩

end GridClaims

end bitlibgo
